import Mathlib

/-!
# HoughValidate, ZZVectorMultiplyConjugate, ComplexFFT, ZeroPadAndFFT, InitBurst

A shallow embedding of the driver `main` of
`lalapps/src/pulsar/hough/src/HoughValidate.c` (namespace `HoughValidate`), of
`lal/packages/vectorops/src/ZZVectorMultiplyConjugate.c` (namespace
`VectorOps`), of `lal/packages/fft/src/ComplexFFT.c` (namespace `ComplexFFT`),
of the routine tested by `lal/packages/stochastic/test/SZeroPadAndFFTTest.c`
(namespace `Stochastic`) and of the time prior of
`lalinference/src/LALInferenceInitBurst.c` (namespace `LALInferenceInitBurst`).

Conventions of the embedding.

* `REAL8` values are rationals: every double is a rational number.  Where a
  `REAL8` result is floored to give an array index (line 465 of
  `HoughValidate.c`) each operation is rounded to the nearest double, ties to
  even (`roundREAL8`); elsewhere `REAL8` arithmetic is exact.
* `cos` and `sin` come from the C library; they are parameters of the
  definitions that call them.
* `UINT4` values are naturals reduced modulo `2 ^ 32` where the C arithmetic
  can wrap; `INT4` values are integers wrapped into `[-2 ^ 31, 2 ^ 31)`.
* An operation whose behaviour C leaves undefined (an array read outside the
  allocated block, a floating value converted to an integer type that cannot
  hold it, a variable read before it is assigned) yields `none`.
* A C array with its length field is a `List`, the length field being the
  length of the list.
* A pointer that may be `NULL` is an `Option`; what a function called from
  outside the source files answers is a parameter.
-/

namespace HoughValidate

/-! ## Data model -/

/-- Cartesian 3-vector `REAL8Cart3Coor`. -/
structure REAL8Cart3Coor where
  x : ℚ
  y : ℚ
  z : ℚ
  deriving DecidableEq, Repr

/-- GPS epoch `LIGOTimeGPS`: integer seconds and nanoseconds. -/
structure LIGOTimeGPS where
  gpsSeconds : ℤ
  gpsNanoSeconds : ℤ
  deriving DecidableEq, Repr

/-- Template `HoughPulsarTemplate`; `spindown` is the `REAL8Vector` of
spin-down coefficients. -/
structure HoughPulsarTemplate where
  f0 : ℚ
  longitude : ℚ
  latitude : ℚ
  spindown : List ℚ
  deriving DecidableEq, Repr

/-- Peakgram `UCHARPeakGram`: the `UCHAR` array `data`. -/
structure UCHARPeakGram where
  data : List ℕ
  deriving DecidableEq, Repr

/-- Value of an integer stored in an `INT4` (two's complement wrap). -/
def wrapINT4 (v : ℤ) : ℤ := (v + 2 ^ 31) % 2 ^ 32 - 2 ^ 31

/-- Value of a natural stored in a `UINT4`. -/
def wrapUINT4 (v : ℕ) : ℕ := v % 2 ^ 32

/-! ## Frequency path (lines 420-451) -/

/-- Local variables of the spin-down loop. -/
structure SpinState where
  f0new : ℚ
  factorialN : ℤ
  timeDiffN : ℚ
  deriving DecidableEq, Repr

/-- One pass of the body of `for (i=0; i<nspin; ++i)` (lines 445-447), `c`
being `pulsarTemplate.spindown.data[i]`. -/
def spinStep (i : ℕ) (c : ℚ) (s : SpinState) : SpinState :=
  let factorialN := wrapINT4 (s.factorialN * ((i : ℤ) + 1))
  { f0new := s.f0new + c * s.timeDiffN / (factorialN : ℚ)
    factorialN := factorialN
    timeDiffN := s.timeDiffN * s.timeDiffN }

/-- The spin-down loop started at index `i` on the coefficients not yet
consumed. -/
def spinLoop : ℕ → List ℚ → SpinState → SpinState
  | _, [], s => s
  | i, c :: cs, s => spinLoop (i + 1) cs (spinStep i c s)

/-- Value of `f0new` after the spin-down loop (lines 440-448) for a segment
whose time offset is `timeDiff`. -/
def f0newAt (t : HoughPulsarTemplate) (timeDiff : ℚ) : ℚ :=
  (spinLoop 0 t.spindown
    { f0new := t.f0, factorialN := 1, timeDiffN := timeDiff }).f0new

/-- Entry `foft.data[j]` (lines 427-449) for a segment of velocity `vel` and
time offset `timeDiff`. -/
def foftEntry (cos sin : ℚ → ℚ) (t : HoughPulsarTemplate)
    (vel : REAL8Cart3Coor) (timeDiff : ℚ) : ℚ :=
  let sourceDelta := t.latitude
  let sourceAlpha := t.longitude
  let cosDelta := cos sourceDelta
  let sourceLocation : REAL8Cart3Coor :=
    { x := cosDelta * cos sourceAlpha
      y := cosDelta * sin sourceAlpha
      z := sin sourceDelta }
  let vcProdn := vel.x * sourceLocation.x
    + vel.y * sourceLocation.y
    + vel.z * sourceLocation.z
  f0newAt t timeDiff * (1 + vcProdn)

/-- The vector `foft` filled by the loop over the time stamps; `velV` and
`timeDiffV` both have `mObsCoh` entries in `main`. -/
def frequencyPath (cos sin : ℚ → ℚ) (t : HoughPulsarTemplate)
    (velV : List REAL8Cart3Coor) (timeDiffV : List ℚ) : List ℚ :=
  List.zipWith (foftEntry cos sin t) velV timeDiffV

/-! ## Number count (lines 453-469) -/

/-- Nearest integer, a tie going to the even neighbour. -/
def roundHalfEven (q : ℚ) : ℤ :=
  if q - (⌊q⌋ : ℚ) < 1 / 2 then ⌊q⌋
  else if 1 / 2 < q - (⌊q⌋ : ℚ) then ⌊q⌋ + 1
  else if ⌊q⌋ % 2 = 0 then ⌊q⌋ else ⌊q⌋ + 1

/-- Spacing of the doubles in the binade of `q`: `2 ^ (e - 52)` for
`2 ^ e ≤ |q| < 2 ^ (e + 1)`, and `2 ^ (-1074)` in the subnormal range. -/
def ulpREAL8 (q : ℚ) : ℚ := (2 : ℚ) ^ max (Int.log 2 |q| - 52) (-1074)

/-- Result of a `REAL8` operation whose exact value is `q`: the nearest double
(53-bit significand), ties to even, as IEEE 754 arithmetic evaluated in double
precision gives it.  The exponent has no upper bound here: a result beyond the
largest double stays a finite value of the same sign. -/
def roundREAL8 (q : ℚ) : ℚ := (roundHalfEven (q / ulpREAL8 q) : ℚ) * ulpREAL8 q

/-- Line 465: `index = floor(foft.data[tempLoopId]*timeBase - sftFminBin + 0.5)`
before the value is stored in the `UINT4`.  The product, the difference and
the sum are `REAL8` operations, each rounded to a double (evaluation in double
precision, as with `FLT_EVAL_METHOD` 0, the operations not fused); the `INT4`
`sftFminBin` converts to `REAL8` without rounding. -/
def binFloor (f timeBase : ℚ) (sftFminBin : ℤ) : ℤ :=
  ⌊roundREAL8 (roundREAL8 (roundREAL8 (f * timeBase) - (sftFminBin : ℚ)) + 1 / 2)⌋

/-- The `UINT4` `index` of line 465; the conversion of a floating value
outside `[0, 2 ^ 32)` is undefined. -/
def binIndex (f timeBase : ℚ) (sftFminBin : ℤ) : Option ℕ :=
  let r := binFloor f timeBase sftFminBin
  if 0 ≤ r ∧ r < 2 ^ 32 then some r.toNat else none

/-- One pass of the body of the loop over peakgrams (lines 462-468);
`numberCount` is the count so far. -/
def numberCountStep (pgV : List UCHARPeakGram) (foft : List ℚ) (timeBase : ℚ)
    (sftFminBin : ℤ) (tempLoopId numberCount : ℕ) : Option ℕ :=
  match pgV[tempLoopId]? with
  | none => none
  | some pg1 =>
    match foft[tempLoopId]? with
    | none => none
    | some f =>
      match binIndex f timeBase sftFminBin with
      | none => none
      | some index =>
        match pg1.data[index]? with
        | none => none
        | some b => some (wrapUINT4 (numberCount + b))

/-- The loop `for (tempLoopId=...; tempLoopId < mObsCoh; tempLoopId++)` with
`remaining` passes left. -/
def numberCountLoop (pgV : List UCHARPeakGram) (foft : List ℚ) (timeBase : ℚ)
    (sftFminBin : ℤ) : ℕ → ℕ → ℕ → Option ℕ
  | 0, _, numberCount => some numberCount
  | remaining + 1, tempLoopId, numberCount =>
    match numberCountStep pgV foft timeBase sftFminBin tempLoopId numberCount with
    | none => none
    | some c => numberCountLoop pgV foft timeBase sftFminBin remaining (tempLoopId + 1) c

/-- Lines 454-469: `numberCount` of one template over `mObsCoh` segments. -/
def numberCount (pgV : List UCHARPeakGram) (foft : List ℚ) (timeBase : ℚ)
    (sftFminBin : ℤ) (mObsCoh : ℕ) : Option ℕ :=
  numberCountLoop pgV foft timeBase sftFminBin mObsCoh 0 0

/-- Number count of a template: frequency path followed by the loop over the
peakgrams, as in one pass of the loop over templates. -/
def templateCount (cos sin : ℚ → ℚ) (t : HoughPulsarTemplate)
    (velV : List REAL8Cart3Coor) (timeDiffV : List ℚ) (pgV : List UCHARPeakGram)
    (timeBase : ℚ) (sftFminBin : ℤ) (mObsCoh : ℕ) : Option ℕ :=
  numberCount pgV (frequencyPath cos sin t velV timeDiffV) timeBase sftFminBin mObsCoh

/-! ## Reference definitions for the number count -/

/-- Contribution of segment `j` to the count at the bin line 465 computes:
`peakgram_j[index]`, and `0` when that bin is not a bin of the peakgram. -/
def peakAt (pgV : List UCHARPeakGram) (foft : List ℚ) (timeBase : ℚ)
    (sftFminBin : ℤ) (j : ℕ) : ℕ :=
  match pgV[j]?, foft[j]? with
  | some pg, some f =>
    if 0 ≤ binFloor f timeBase sftFminBin then
      pg.data.getD (binFloor f timeBase sftFminBin).toNat 0
    else 0
  | _, _ => 0

/-- The bin line 465 computes for segment `j` lies in `[0, spectrumLength)`. -/
def InRange (pgV : List UCHARPeakGram) (foft : List ℚ) (timeBase : ℚ)
    (sftFminBin : ℤ) (j : ℕ) : Prop :=
  ∃ pg f, pgV[j]? = some pg ∧ foft[j]? = some f ∧
    0 ≤ binFloor f timeBase sftFminBin ∧
    binFloor f timeBase sftFminBin < (pg.data.length : ℤ)

/-- Segment store of `mObsCoh` segments of `sftlength` bins each, with boolean
peakgram entries; both sizes are `UINT4` values. -/
def SegmentStoreOK (pgV : List UCHARPeakGram) (sftlength mObsCoh : ℕ) : Prop :=
  pgV.length = mObsCoh ∧ mObsCoh < 2 ^ 32 ∧ sftlength < 2 ^ 32 ∧
    ∀ pg ∈ pgV, pg.data.length = sftlength ∧ ∀ b ∈ pg.data, b ≤ 1

/-- The three peakgrams of the scenario of section 8 (`M = 3`,
`spectrumLength = 10`). -/
def scenarioPgV : List UCHARPeakGram :=
  [⟨[1, 0, 1, 0, 0, 0, 0, 0, 0, 0]⟩, ⟨[0, 1, 0, 0, 0, 0, 0, 0, 0, 0]⟩,
    ⟨[1, 1, 0, 0, 0, 0, 0, 0, 0, 0]⟩]

/-! ## Reference definitions for the frequency path -/

/-- Intrinsic frequency in the words of section 4.5:
`f0 + Σ_{i=1}^{k} spindown[i-1] · Δt^i / i!` with `k = len(spindown)`. -/
def taylorIntrinsic (f0 : ℚ) (spindown : List ℚ) (dt : ℚ) : ℚ :=
  f0 + ∑ i in Finset.Icc 1 spindown.length,
    spindown.getD (i - 1) 0 * dt ^ i / (i.factorial : ℚ)

/-- Sky direction in the words of section 4.5:
`(cos(lat)cos(lon), cos(lat)sin(lon), sin(lat))`. -/
def skyDirection (cos sin : ℚ → ℚ) (lon lat : ℚ) : REAL8Cart3Coor :=
  { x := cos lat * cos lon, y := cos lat * sin lon, z := sin lat }

/-- Euclidean dot product of two 3-vectors. -/
def dot (v n : REAL8Cart3Coor) : ℚ := v.x * n.x + v.y * n.y + v.z * n.z

/-- Round to nearest, ties away from zero (the rounding named in section
4.6). -/
def roundHalfAway (x : ℚ) : ℤ := if 0 ≤ x then ⌊x + 1 / 2⌋ else ⌈x - 1 / 2⌉

/-- Predicted bin in the words of section 4.6:
`idx_j = round(f_predicted_j * timeBaseline - fMinBin)`, the argument taken as
a real number and rounded to nearest with ties away from zero. -/
def predictedIndex (f timeBase : ℚ) (sftFminBin : ℤ) : ℤ :=
  roundHalfAway (f * timeBase - (sftFminBin : ℚ))

/-- Contribution of segment `j` to the count in the words of section 4.6:
`peakgram_j[idx_j]` with `idx_j` the predicted bin, and `0` when `idx_j` is not
a bin of the peakgram. -/
def peakAtPredicted (pgV : List UCHARPeakGram) (foft : List ℚ) (timeBase : ℚ)
    (sftFminBin : ℤ) (j : ℕ) : ℕ :=
  match pgV[j]?, foft[j]? with
  | some pg, some f =>
    if 0 ≤ predictedIndex f timeBase sftFminBin then
      pg.data.getD (predictedIndex f timeBase sftFminBin).toNat 0
    else 0
  | _, _ => 0

/-- The predicted bin of segment `j`, in the words of section 4.6, lies in
`[0, spectrumLength)`. -/
def PredictedInRange (pgV : List UCHARPeakGram) (foft : List ℚ) (timeBase : ℚ)
    (sftFminBin : ℤ) (j : ℕ) : Prop :=
  ∃ pg f, pgV[j]? = some pg ∧ foft[j]? = some f ∧
    0 ≤ predictedIndex f timeBase sftFminBin ∧
    predictedIndex f timeBase sftFminBin < (pg.data.length : ℤ)

/-- The three `REAL8` operations of line 465 are exact for the frequency `f`:
the product, the difference and the sum are doubles. -/
def Line465Exact (f timeBase : ℚ) (sftFminBin : ℤ) : Prop :=
  roundREAL8 (f * timeBase) = f * timeBase ∧
  roundREAL8 (f * timeBase - (sftFminBin : ℚ)) = f * timeBase - (sftFminBin : ℚ) ∧
  roundREAL8 (f * timeBase - (sftFminBin : ℚ) + 1 / 2)
    = f * timeBase - (sftFminBin : ℚ) + 1 / 2

/-- Bound on the rounding error the three `REAL8` operations of line 465 can
add up to: four units of relative rounding error `2 ^ (-53)` on
`|f * timeBase| + |sftFminBin| + 1`. -/
def line465Slack (f timeBase : ℚ) (sftFminBin : ℤ) : ℚ :=
  (|f * timeBase| + |(sftFminBin : ℚ)| + 1) / 2 ^ 51

/-- The argument `x = f * timeBase - sftFminBin` is farther than the slack
from every point half-way between two integers: `x + 1/2` is farther than
the slack from every integer. -/
def AwayFromTies (f timeBase : ℚ) (sftFminBin : ℤ) : Prop :=
  ∀ n : ℤ, line465Slack f timeBase sftFminBin
    < |f * timeBase - (sftFminBin : ℚ) + 1 / 2 - (n : ℚ)|

/-- Rounding cannot move the value floored at line 465 across an integer: the
operations are exact, or the argument is away from the half-way points. -/
def Line465Safe (f timeBase : ℚ) (sftFminBin : ℤ) : Prop :=
  Line465Exact f timeBase sftFminBin ∨ AwayFromTies f timeBase sftFminBin

/-! ## Time stamps and time offsets (lines 297-330) -/

/-- Header of one SFT of the input vector: epoch, start frequency and
frequency resolution. -/
structure SFTtype where
  epoch : LIGOTimeGPS
  f0 : ℚ
  deltaF : ℚ
  deriving DecidableEq, Repr

/-- Lines 303-306: `timeV.data[j]` for `j < mObsCoh`.  Each pass copies
`inputSFTs->data->epoch`, the epoch of the first SFT of the vector.  (The
copy is made after `LALDestroySFTVector` at line 291; the headers are taken as
still readable.) -/
def setTimeV (inputSFTs : List SFTtype) : List LIGOTimeGPS :=
  match inputSFTs with
  | [] => []
  | sft0 :: _ => List.replicate inputSFTs.length sft0.epoch

/-- The sum `ts + tn` of lines 320-322 and 326-328: seconds plus `1.00E-9`
times nanoseconds. -/
def epochREAL8 (t : LIGOTimeGPS) : ℚ :=
  (t.gpsSeconds : ℚ) + (t.gpsNanoSeconds : ℚ) * (1 / 10 ^ 9)

/-- Lines 316-330: `timeDiffV.data` from `timeV.data`. -/
def computeTimeDiffV (timeV : List LIGOTimeGPS) : List ℚ :=
  match timeV with
  | [] => []
  | first :: rest => 0 :: rest.map fun tj => epochREAL8 tj - epochREAL8 first

/-- Time offsets recorded by `main` for a loaded SFT vector. -/
def recordedTimeOffsets (inputSFTs : List SFTtype) : List ℚ :=
  computeTimeDiffV (setTimeV inputSFTs)

/-- Time offsets in the words of section 4.4:
`epoch(segment) - epoch(segment[0])` for every segment. -/
def epochOffsets (inputSFTs : List SFTtype) : List ℚ :=
  match inputSFTs with
  | [] => []
  | sft0 :: _ => inputSFTs.map fun sft => epochREAL8 sft.epoch - epochREAL8 sft0.epoch

/-! ## Peak threshold (lines 88-91, 137-154, 268-288, 399) -/

/-- The variables of `main` that enter the peak threshold.  `threshold` is
declared at line 91 without a value: it is `none` until it is assigned. -/
structure ThresholdVars where
  uvar_peakThreshold : ℚ
  normalizeThr : ℚ
  threshold : Option ℚ
  deriving DecidableEq, Repr

/-- State on entry to the loop over SFTs (line 270): the user threshold and
the bias factor are set (lines 119, 137-154), `threshold` is not. -/
def varsBeforePeakLoop (uvar_peakThreshold normalizeThr : ℚ) : ThresholdVars :=
  { uvar_peakThreshold := uvar_peakThreshold
    normalizeThr := normalizeThr
    threshold := none }

/-- Lines 270-288: the value of `threshold` read through `&threshold` by
`LALSelectPeakColorNoise` in each of the `mObsCoh` passes; the loop does not
write `threshold`. -/
def peakLoopThresholds (s : ThresholdVars) (mObsCoh : ℕ) : List (Option ℚ) :=
  List.replicate mObsCoh s.threshold

/-- Line 399: `threshold = uvar_peakThreshold/normalizeThr`. -/
def assignThreshold (s : ThresholdVars) : ThresholdVars :=
  { s with threshold := some (s.uvar_peakThreshold / s.normalizeThr) }

/-- The statements of `main` on `threshold` in program order: the loop over
SFTs (lines 270-288), then the assignment (line 399).  The result is the list
of thresholds handed to the peak selector and the final variables. -/
def mainThreshold (uvar_peakThreshold normalizeThr : ℚ) (mObsCoh : ℕ) :
    List (Option ℚ) × ThresholdVars :=
  let s0 := varsBeforePeakLoop uvar_peakThreshold normalizeThr
  let handed := peakLoopThresholds s0 mObsCoh
  (handed, assignThreshold s0)

/-! ## Peak selector (section 4.3) -/

/-- Bin `k` of a spectrum of `len` bins has a full `w`-wide neighbourhood
(section 4.2). -/
def estimable (w len k : ℕ) : Bool := decide (w / 2 ≤ k ∧ k + w / 2 < len)

/-- Modelled from the spec: the peak selector `LALSelectPeakColorNoise`, called
at line 286 and defined outside the source files at hand.  Section 4.3: the
absolute ratio threshold is `θ / b(w)`; for every estimable bin
`peak[k] = (periodogram[k] / psd[k]) > (θ / b(w))`; the peakgram has the length
of the periodogram, and bins that are not estimable are `false`. -/
def selectPeak (w : ℕ) (b theta : ℚ) (periodogram psd : List ℚ) : List ℕ :=
  (List.range periodogram.length).map fun k =>
    if estimable w periodogram.length k = true
        ∧ periodogram.getD k 0 / psd.getD k 0 > theta / b then 1 else 0

/-! ## Template file (lines 203-237) -/

/-- One whitespace-separated field of the template file: a number that `%lf`
converts, or a field that `%lf` rejects. -/
inductive Token where
  | num (v : ℚ)
  | word
  deriving DecidableEq, Repr

/-- A template file: its lines, each a list of fields. -/
abbrev TemplateFile := List (List Token)

/-- The stream `fscanf` reads: `%lf` skips white space, line ends included,
so the fields follow one another whatever the lines are. -/
def fileTokens (file : TemplateFile) : List Token := file.flatten

/-- At most `k` successive `%lf` conversions: the values converted and the
stream left.  A field that is not a number stops the scan and stays in the
stream. -/
def scanDoubles : ℕ → List Token → List ℚ × List Token
  | 0, stream => ([], stream)
  | _ + 1, [] => ([], [])
  | _ + 1, Token.word :: stream => ([], Token.word :: stream)
  | k + 1, Token.num v :: stream =>
    ((v :: (scanDoubles k stream).1), (scanDoubles k stream).2)

/-- The value of the C constant `EOF`. -/
def EOF : ℤ := -1

/-- One call `fscanf(fpIn,"%lf%lf%lf%lf%lf\n", ...)`: the return value `r`, the
values stored and the stream left.  `r` is `EOF` when the stream ends before
the first conversion, and the number of values stored otherwise. -/
def fscanf5 (stream : List Token) : ℤ × List ℚ × List Token :=
  match stream with
  | [] => (EOF, [], [])
  | _ :: _ =>
    (((scanDoubles 5 stream).1.length : ℤ), (scanDoubles 5 stream).1, (scanDoubles 5 stream).2)

/-- The counting loop of lines 216-222, `do { r = fscanf(...); if (r==5)
nTemplates++; } while (r != EOF)`, run for at most `fuel` passes; `none` when
the loop has not ended by then. -/
def countLoop : ℕ → List Token → ℕ → Option ℕ
  | 0, _, _ => none
  | fuel + 1, stream, nTemplates =>
    if (fscanf5 stream).1 ≠ EOF then
      countLoop fuel (fscanf5 stream).2.2
        (if (fscanf5 stream).1 = 5 then nTemplates + 1 else nTemplates)
    else
      some (if (fscanf5 stream).1 = 5 then nTemplates + 1 else nTemplates)

/-- The entries of `alphaVec`, `deltaVec`, `freqVec` and `spndnVec` at one
index. -/
structure TemplateEntry where
  alpha : ℚ
  delta : ℚ
  freq : ℚ
  spndn : ℚ
  deriving DecidableEq, Repr

/-- The reading loop of lines 231-235 after `rewind`: `nTemplates` calls of
`fscanf`, the first value going to `temp1` and the other four to the arrays.
The return value is not looked at; a call that stores fewer than five values
leaves array entries without a value (`none`). -/
def readLoop : ℕ → List Token → Option (List TemplateEntry)
  | 0, _ => some []
  | n + 1, stream =>
    match (fscanf5 stream).2.1 with
    | [_temp1, a, d, f, s] =>
      match readLoop n (fscanf5 stream).2.2 with
      | none => none
      | some rest => some (⟨a, d, f, s⟩ :: rest)
    | _ => none

/-! ## Band, segment data and the loop over templates (lines 243-479) -/

/-- Lines 243-255: the band `(fmin, fmax)` passed to `LALReadSFTfiles`, from
`freqVec[0]` and `freqVec[nTemplates-1]`; `VTOT` is a constant of a header
outside the source files.  With no template both reads fall outside the
arrays (the `UINT8` index `nTemplates-1` wraps to `2^64-1`). -/
def requestedBand (VTOT : ℚ) (freqVec : List ℚ) : Option (ℚ × ℚ) :=
  match freqVec[0]?, freqVec[freqVec.length - 1]? with
  | some first, some last =>
    let fmin := first
    let fmax := last
    let fWings := fmax * VTOT
    some (fmin - fWings, fmax + fWings)
  | _, _ => none

/-- What `main` holds after lines 258-380 for the band it asked for: the
peakgrams, velocities and time offsets of the `mObsCoh` segments, `timeBase`
and `sftFminBin`. -/
structure SegmentData where
  pgV : List UCHARPeakGram
  velV : List REAL8Cart3Coor
  timeDiffV : List ℚ
  timeBase : ℚ
  sftFminBin : ℤ
  mObsCoh : ℕ
  deriving DecidableEq, Repr

/-- Record written for one template (lines 475-477). -/
structure NumberCountRecord where
  numberCount : ℕ
  longitude : ℚ
  latitude : ℚ
  f0 : ℚ
  spindown0 : ℚ
  deriving DecidableEq, Repr

/-- One pass of the loop over templates (lines 411-477): the template is set
from the arrays (one spin-down, `msp = 1`), its count is computed and the
record is written. -/
def templateRecord (cos sin : ℚ → ℚ) (seg : SegmentData) (e : TemplateEntry) :
    Option NumberCountRecord :=
  let pulsarTemplate : HoughPulsarTemplate :=
    { f0 := e.freq, longitude := e.alpha, latitude := e.delta, spindown := [e.spndn] }
  match templateCount cos sin pulsarTemplate seg.velV seg.timeDiffV seg.pgV seg.timeBase
      seg.sftFminBin seg.mObsCoh with
  | none => none
  | some numberCount =>
    some { numberCount := numberCount
           longitude := pulsarTemplate.longitude
           latitude := pulsarTemplate.latitude
           f0 := pulsarTemplate.f0
           spindown0 := e.spndn }

/-- The loop over templates (lines 408-479): the records written, in the
order of the passes. -/
def templateLoop (cos sin : ℚ → ℚ) (seg : SegmentData) :
    List TemplateEntry → Option (List NumberCountRecord)
  | [] => some []
  | e :: es =>
    match templateRecord cos sin seg e with
    | none => none
    | some r =>
      match templateLoop cos sin seg es with
      | none => none
      | some rs => some (r :: rs)

/-- What the functions called in lines 258-380 answer when they return
without an error status; they are defined outside the source files.
`LALReadSFTfiles fmin fmax` is the SFT vector read for the band,
`LALSelectPeakColorNoise sft` the peakgram data written for an SFT (after
`SFT2Periodogram` and `LALPeriodo2PSDrng`), `LALAvgDetectorVel tBase t` the
velocity for the time base `tBase` and the start time `t`. -/
structure SegmentCallees where
  LALReadSFTfiles : ℚ → ℚ → List SFTtype
  LALSelectPeakColorNoise : SFTtype → List ℕ
  LALAvgDetectorVel : ℚ → LIGOTimeGPS → REAL8Cart3Coor

/-- Line 273: the array `pgV` as `LALMalloc` returns it, `mObsCoh` pointers to
peakgrams none of which has been assigned (`none`). -/
def mallocPgV (mObsCoh : ℕ) : List (Option UCHARPeakGram) :=
  List.replicate mObsCoh none

/-- One pass of the loop over SFTs (lines 273-286).  `pgV` is allocated anew
(line 273), `pg1 = pgV[tempLoopId]` is read from the new array (line 274) and
lines 275-286 write the peakgram through `pg1`: a `pg1` that was never
assigned makes the pass undefined.  The result is `pgV` after the pass. -/
def peakLoopPass (callees : SegmentCallees) (inputSFTs : List SFTtype)
    (mObsCoh tempLoopId : ℕ) : Option (List (Option UCHARPeakGram)) :=
  match (mallocPgV mObsCoh)[tempLoopId]?, inputSFTs[tempLoopId]? with
  | some (some _), some sft =>
    some ((mallocPgV mObsCoh).set tempLoopId (some ⟨callees.LALSelectPeakColorNoise sft⟩))
  | _, _ => none

/-- The loop `for (tempLoopId=0; tempLoopId < mObsCoh; tempLoopId++)` of lines
270-288 with `remaining` passes left, `pgV` being the array held before the
pass. -/
def peakLoop (callees : SegmentCallees) (inputSFTs : List SFTtype) (mObsCoh : ℕ) :
    ℕ → ℕ → List (Option UCHARPeakGram) → Option (List (Option UCHARPeakGram))
  | 0, _, pgV => some pgV
  | remaining + 1, tempLoopId, _ =>
    match peakLoopPass callees inputSFTs mObsCoh tempLoopId with
    | none => none
    | some pgV => peakLoop callees inputSFTs mObsCoh remaining (tempLoopId + 1) pgV

/-- The peakgrams the loop over templates reaches through `pgV[tempLoopId]`
(line 463): every pointer of the array must have been assigned. -/
def peakgramsOf : List (Option UCHARPeakGram) → Option (List UCHARPeakGram)
  | [] => some []
  | none :: _ => none
  | some pg :: rest =>
    match peakgramsOf rest with
    | none => none
    | some pgs => some (pg :: pgs)

/-- Line 264: `timeBase = 1.0/inputSFTs->data->deltaF`, a `REAL8` division;
for `deltaF = 0` the quotient is not a finite value and the model has none. -/
def timeBaseOf (deltaF : ℚ) : Option ℚ :=
  if deltaF = 0 then none else some (roundREAL8 (1 / deltaF))

/-- Line 265: `sftFminBin = floor(timeBase * inputSFTs->data->f0 + 0.5)`, the
`REAL8` product and sum rounded; the conversion of a value outside the `INT4`
range is undefined. -/
def sftFminBinOf (timeBase f0 : ℚ) : Option ℤ :=
  let r := ⌊roundREAL8 (roundREAL8 (timeBase * f0) + 1 / 2)⌋
  if -2 ^ 31 ≤ r ∧ r < 2 ^ 31 then some r else none

/-- Lines 243-261 of `main`: the band is computed from the template arrays and
`LALReadSFTfiles` is called with it; the result is the SFT vector `inputSFTs`. -/
def readSFTs (VTOT : ℚ) (callees : SegmentCallees) (templates : List TemplateEntry) :
    Option (List SFTtype) :=
  match requestedBand VTOT (templates.map TemplateEntry.freq) with
  | none => none
  | some band => some (callees.LALReadSFTfiles band.1 band.2)

/-- Lines 262-380 of `main`: `mObsCoh`, `timeBase` and `sftFminBin` are taken
from the SFT vector and its first SFT (lines 262-265; with no SFT there is no
first SFT to read), the peakgrams are selected (lines 270-288), the time
stamps and offsets are set (lines 297-330) and the velocities computed (lines
343-380). -/
def loadSegments (callees : SegmentCallees) (inputSFTs : List SFTtype) :
    Option SegmentData :=
  match inputSFTs with
  | [] => none
  | sft0 :: _ =>
    let mObsCoh := inputSFTs.length
    match timeBaseOf sft0.deltaF with
    | none => none
    | some timeBase =>
      match sftFminBinOf timeBase sft0.f0 with
      | none => none
      | some sftFminBin =>
        match peakLoop callees inputSFTs mObsCoh mObsCoh 0 [] with
        | none => none
        | some pgV =>
          match peakgramsOf pgV with
          | none => none
          | some peakgrams =>
            some { pgV := peakgrams
                   velV := (setTimeV inputSFTs).map (callees.LALAvgDetectorVel timeBase)
                   timeDiffV := recordedTimeOffsets inputSFTs
                   timeBase := timeBase
                   sftFminBin := sftFminBin
                   mObsCoh := mObsCoh }

/-- Lines 243-479 of `main` once the template arrays are filled: the SFTs are
read for the band of the templates, the segment data are built from them, the
templates are scored. -/
def driver (VTOT : ℚ) (callees : SegmentCallees) (cos sin : ℚ → ℚ)
    (templates : List TemplateEntry) : Option (List NumberCountRecord) :=
  match readSFTs VTOT callees templates with
  | none => none
  | some inputSFTs =>
    match loadSegments callees inputSFTs with
    | none => none
    | some seg => templateLoop cos sin seg templates

/-- Exit status of `main`: `DRIVEHOUGHCOLOR_ENORM` or `DRIVEHOUGHCOLOR_EFILE`. -/
inductive ExitStatus where
  | ENORM
  | EFILE
  deriving DecidableEq, Repr

/-- Outcome of a run of `main`. -/
inductive RunResult where
  | undefinedBehaviour
  | scanNotEnded
  | exit (status : ExitStatus) (records : List NumberCountRecord)
  deriving DecidableEq, Repr

/-- The run of `main` from line 208 on: `fpIn` is `none` when the template
file cannot be opened; `fuel` bounds the passes of the counting loop. -/
def mainRun (fuel : ℕ) (VTOT : ℚ) (callees : SegmentCallees) (cos sin : ℚ → ℚ)
    (fpIn : Option TemplateFile) : RunResult :=
  match fpIn with
  | none => RunResult.exit ExitStatus.EFILE []
  | some file =>
    match countLoop fuel (fileTokens file) 0 with
    | none => RunResult.scanNotEnded
    | some nTemplates =>
      match readLoop nTemplates (fileTokens file) with
      | none => RunResult.undefinedBehaviour
      | some templates =>
        match driver VTOT callees cos sin templates with
        | none => RunResult.undefinedBehaviour
        | some records => RunResult.exit ExitStatus.ENORM records

/-- Line 475: `fprintf(fpOut,"%d %f %f %f %g \n", ...)`.  The renderings of one
value by `%d`, `%f` and `%g` belong to the C library and are parameters. -/
def printRecord (fmtD : ℕ → String) (fmtF fmtG : ℚ → String)
    (r : NumberCountRecord) : String :=
  fmtD r.numberCount ++ " " ++ fmtF r.longitude ++ " " ++ fmtF r.latitude ++ " "
    ++ fmtF r.f0 ++ " " ++ fmtG r.spindown0 ++ " \n"

/-! ## Reference definitions for the driver -/

/-- A line of exactly five numeric fields
`<unused-weight> <longitude> <latitude> <f0> <spindown0>`. -/
def wellFormedLine (weight lon lat f0 sd : ℚ) : List Token :=
  [Token.num weight, Token.num lon, Token.num lat, Token.num f0, Token.num sd]

/-- A line consists of exactly five numeric fields. -/
def IsWellFormed (line : List Token) : Prop :=
  ∃ weight lon lat f0 sd : ℚ, line = wellFormedLine weight lon lat f0 sd

/-- Number of well-formed lines before the first line that is not (section
6). -/
def wellFormedPrefixCount : TemplateFile → ℕ
  | [] => 0
  | line :: rest =>
    match line with
    | [Token.num _, Token.num _, Token.num _, Token.num _, Token.num _] =>
      wellFormedPrefixCount rest + 1
    | _ => 0

/-- Output line in the words of section 6: the five fields separated by single
spaces, the last one followed by the newline. -/
def specLine (fmtD : ℕ → String) (fmtF fmtG : ℚ → String)
    (r : NumberCountRecord) : String :=
  String.intercalate " "
    [fmtD r.numberCount, fmtF r.longitude, fmtF r.latitude, fmtF r.f0, fmtG r.spindown0]
    ++ "\n"

/-! ## Reference definitions for the spin-down loop and the band -/

end HoughValidate

/-! # LAL status macros -/

namespace LALStatus

/-- Modelled from the spec: the macro `ASSERT` of the LAL status headers,
which are outside the source files.  As the DIAGNOSTICS of the functions
describe it, a failed assertion makes the function return at once with the
given status code (`failure`); otherwise the function goes on (`rest`). -/
def ASSERT {α : Type} (assertion : Bool) (failure : α) (rest : α) : α :=
  if assertion then rest else failure

end LALStatus

/-! # ZZVectorMultiplyConjugate.c -/

namespace VectorOps

open LALStatus

/-- Double-precision complex number `COMPLEX16`. -/
structure COMPLEX16 where
  re : ℚ
  im : ℚ
  deriving DecidableEq, Repr

/-- Vector `COMPLEX16Vector`: the `UINT4` length field and the `data` pointer,
`none` for `NULL` and the address of the data block otherwise. -/
structure COMPLEX16Vector where
  length : ℕ
  data : Option ℕ
  deriving DecidableEq, Repr

/-- Memory: the block of `COMPLEX16` values found at each address. -/
abbrev Memory := ℕ → List COMPLEX16

/-- Status codes of `VectorOps.h` set by the function; the header, with their
numeric values, is outside the source files. -/
inductive Status where
  | success
  | ENULL
  | ESIZE
  | ESZMM
  deriving DecidableEq, Repr

/-- The loop `while (n-- > 0)` of lines 71-84 with `remaining` passes left:
`a`, `b` and `c` point at element `k` of the blocks at `pa`, `pb` and `pc`.
The four parts are read before `c->re` and `c->im` are written; an access
outside a block is undefined. -/
def multiplyConjugateLoop (pa pb pc : ℕ) : ℕ → ℕ → Memory → Option Memory
  | 0, _, mem => some mem
  | remaining + 1, k, mem =>
    match (mem pa)[k]?, (mem pb)[k]? with
    | some a, some b =>
      let ar := a.re
      let ai := a.im
      let br := b.re
      let bi := b.im
      if k < (mem pc).length then
        multiplyConjugateLoop pa pb pc remaining (k + 1)
          (Function.update mem pc ((mem pc).set k ⟨ar * br + ai * bi, ai * br - ar * bi⟩))
      else none
    | _, _ => none

/-- `LALZZVectorMultiplyConjugate` (lines 36-87): the status and the memory on
return, `none` when the behaviour is undefined.  `n` is an `INT4` set from the
`UINT4` length. -/
def LALZZVectorMultiplyConjugate (mem : Memory) (out in1 in2 : Option COMPLEX16Vector) :
    Option (Status × Memory) :=
  match out, in1, in2 with
  | some out, some in1, some in2 =>
    match out.data, in1.data, in2.data with
    | some c, some a, some b =>
      ASSERT (decide (out.length > 0)) (some (Status.ESIZE, mem)) <|
      ASSERT (decide (in1.length = out.length)) (some (Status.ESZMM, mem)) <|
      ASSERT (decide (in2.length = out.length)) (some (Status.ESZMM, mem)) <|
      match multiplyConjugateLoop a b c
          (HoughValidate.wrapINT4 (out.length : ℤ)).toNat 0 mem with
      | none => none
      | some mem' => some (Status.success, mem')
    | _, _, _ => some (Status.ENULL, mem)
  | _, _, _ => some (Status.ENULL, mem)

/-- Complex conjugate. -/
def conj (z : COMPLEX16) : COMPLEX16 := ⟨z.re, -z.im⟩

/-- Product of two complex numbers. -/
def mul (z w : COMPLEX16) : COMPLEX16 :=
  ⟨z.re * w.re - z.im * w.im, z.re * w.im + z.im * w.re⟩

/-- Memory of the counterexample on long vectors: a block of `2 ^ 31 + 1`
zeros at address `0` and blocks of `2 ^ 31 + 1` ones elsewhere. -/
def longMemory : Memory := fun p =>
  List.replicate (2 ^ 31 + 1) (if p = 0 then ⟨0, 0⟩ else ⟨1, 0⟩)

end VectorOps

/-! # ComplexFFT.c -/

namespace ComplexFFT

open LALStatus

/-- Plan `ComplexFFTPlan`: `size`, `sign` and the FFTW plan it wraps (a
pointer that is not `NULL`). -/
structure ComplexFFTPlan where
  size : ℕ
  sign : ℤ
  plan : ℕ
  deriving DecidableEq, Repr

/-- Status codes of `ComplexFFT.h` set by the functions; the header, with
their numeric values, is outside the source files. -/
inductive Status where
  | success
  | ENULL
  | ENNUL
  | ESIZE
  | ESZMM
  | ESAME
  deriving DecidableEq, Repr

/-- Planner flag passed to FFTW next to `FFTW_THREADSAFE`. -/
inductive PlannerFlag where
  | FFTW_ESTIMATE
  | FFTW_MEASURE
  deriving DecidableEq, Repr

/-- What the functions called from outside answer: whether `LALMalloc` gives a
block, and the plan `fftw_create_plan` returns for a size, a direction and a
flag (`none` for `NULL`). -/
structure Environment where
  LALMalloc : Bool
  fftw_create_plan : ℕ → ℤ → PlannerFlag → Option ℕ

/-- A handle `ComplexFFTPlan **plan`: `none` for a `NULL` argument, `some none`
when `*plan` is `NULL`, `some (some p)` when `*plan` points at the plan `p`. -/
abbrev Handle := Option (Option ComplexFFTPlan)

/-- `LALEstimateFwdComplexFFTPlan` (lines 51-91): status and handle on
return. -/
def LALEstimateFwdComplexFFTPlan (env : Environment) (plan : Handle) (size : ℕ) :
    Status × Handle :=
  match plan with
  | none => (Status.ENULL, none)
  | some star =>
    ASSERT (decide (star = none)) (Status.ENNUL, some star) <|
    ASSERT (decide (size > 0)) (Status.ESIZE, some star) <|
    ASSERT env.LALMalloc (Status.ENULL, some none) <|
    match env.fftw_create_plan size 1 PlannerFlag.FFTW_ESTIMATE with
    | none => (Status.ENULL, some none)
    | some p => (Status.success, some (some { size := size, sign := 1, plan := p }))

/-- `LALEstimateInvComplexFFTPlan` (lines 94-134): status and handle on
return. -/
def LALEstimateInvComplexFFTPlan (env : Environment) (plan : Handle) (size : ℕ) :
    Status × Handle :=
  match plan with
  | none => (Status.ENULL, none)
  | some star =>
    ASSERT (decide (star = none)) (Status.ENNUL, some star) <|
    ASSERT (decide (size > 0)) (Status.ESIZE, some star) <|
    ASSERT env.LALMalloc (Status.ENULL, some none) <|
    match env.fftw_create_plan size (-1) PlannerFlag.FFTW_ESTIMATE with
    | none => (Status.ENULL, some none)
    | some p => (Status.success, some (some { size := size, sign := -1, plan := p }))

/-- `LALMeasureFwdComplexFFTPlan` (lines 137-177): status and handle on
return. -/
def LALMeasureFwdComplexFFTPlan (env : Environment) (plan : Handle) (size : ℕ) :
    Status × Handle :=
  match plan with
  | none => (Status.ENULL, none)
  | some star =>
    ASSERT (decide (star = none)) (Status.ENNUL, some star) <|
    ASSERT (decide (size > 0)) (Status.ESIZE, some star) <|
    ASSERT env.LALMalloc (Status.ENULL, some none) <|
    match env.fftw_create_plan size 1 PlannerFlag.FFTW_MEASURE with
    | none => (Status.ENULL, some none)
    | some p => (Status.success, some (some { size := size, sign := 1, plan := p }))

/-- `LALMeasureInvComplexFFTPlan` (lines 180-220): status and handle on
return. -/
def LALMeasureInvComplexFFTPlan (env : Environment) (plan : Handle) (size : ℕ) :
    Status × Handle :=
  match plan with
  | none => (Status.ENULL, none)
  | some star =>
    ASSERT (decide (star = none)) (Status.ENNUL, some star) <|
    ASSERT (decide (size > 0)) (Status.ESIZE, some star) <|
    ASSERT env.LALMalloc (Status.ENULL, some none) <|
    match env.fftw_create_plan size (-1) PlannerFlag.FFTW_MEASURE with
    | none => (Status.ENULL, some none)
    | some p => (Status.success, some (some { size := size, sign := -1, plan := p }))

/-- `LALDestroyComplexFFTPlan` (lines 223-246): status and handle on return. -/
def LALDestroyComplexFFTPlan (plan : Handle) : Status × Handle :=
  match plan with
  | none => (Status.ENULL, none)
  | some star =>
    ASSERT (decide (star ≠ none)) (Status.ENULL, some star) <|
    (Status.success, some none)

end ComplexFFT

/-! # ComplexFFT.c: the vector transform -/

namespace ComplexFFT

open LALStatus

/-- Single-precision complex number `COMPLEX8`. -/
structure COMPLEX8 where
  re : ℚ
  im : ℚ
  deriving DecidableEq, Repr

/-- Vector `COMPLEX8Vector`: the `UINT4` length field and the `data` pointer,
`none` for `NULL` and the address of the data block otherwise. -/
structure COMPLEX8Vector where
  length : ℕ
  data : Option ℕ
  deriving DecidableEq, Repr

/-- Memory: the block of `COMPLEX8` values found at each address. -/
abbrev Memory := ℕ → List COMPLEX8

/-- `LALCOMPLEX8VectorFFT` (lines 249-289): status and memory on return.
`fftw_one` is the transform of the FFTW library: from the FFTW plan and the
input block it gives the block written at the output address. -/
def LALCOMPLEX8VectorFFT (fftw_one : ℕ → List COMPLEX8 → List COMPLEX8) (mem : Memory)
    (vout vinp : Option COMPLEX8Vector) (plan : Option ComplexFFTPlan) : Status × Memory :=
  match vout, vinp, plan with
  | some vout, some vinp, some plan =>
    match vout.data, vinp.data with
    | some pout, some pinp =>
      ASSERT (decide (pout ≠ pinp)) (Status.ESAME, mem) <|
      ASSERT (decide (plan.size > 0)) (Status.ESIZE, mem) <|
      ASSERT (decide (vout.length = plan.size)) (Status.ESZMM, mem) <|
      ASSERT (decide (vinp.length = plan.size)) (Status.ESZMM, mem) <|
      (Status.success, Function.update mem pout (fftw_one plan.plan (mem pinp)))
    | _, _ => (Status.ENULL, mem)
  | _, _, _ => (Status.ENULL, mem)

end ComplexFFT

/-! # LALSZeroPadAndFFT (tested by SZeroPadAndFFTTest.c) -/

namespace Stochastic

/-- Units `LALUnit` as the exponents of the seven basic units (metre,
kilogram, second, ampere, kelvin, strain, ADC count), the power of ten left
out. -/
abbrev LALUnit := List ℤ

/-- The unit second (`LALUnitIndexSecond = 2`). -/
def lalSecondUnit : LALUnit := [0, 0, 1, 0, 0, 0, 0]

/-- The unit ADC count (`LALUnitIndexADCCount = 6`). -/
def lalADCCountUnit : LALUnit := [0, 0, 0, 0, 0, 0, 1]

/-- Product of two units: the exponents add. -/
def unitMultiply (u v : LALUnit) : LALUnit := List.zipWith (· + ·) u v

/-- Vector `REAL4Vector`: length field and data (`none` for `NULL`). -/
structure REAL4Vector where
  length : ℕ
  data : Option (List ℚ)
  deriving DecidableEq, Repr

/-- Vector `COMPLEX8Vector`: length field and data (`none` for `NULL`), each
element a pair (real part, imaginary part). -/
structure COMPLEX8Vector where
  length : ℕ
  data : Option (List (ℚ × ℚ))
  deriving DecidableEq, Repr

/-- Time series `REAL4TimeSeries`. -/
structure REAL4TimeSeries where
  epoch : HoughValidate.LIGOTimeGPS
  deltaT : ℚ
  f0 : ℚ
  sampleUnits : LALUnit
  data : Option REAL4Vector
  deriving DecidableEq, Repr

/-- Frequency series `COMPLEX8FrequencySeries`. -/
structure COMPLEX8FrequencySeries where
  epoch : HoughValidate.LIGOTimeGPS
  f0 : ℚ
  deltaF : ℚ
  sampleUnits : LALUnit
  data : Option COMPLEX8Vector
  deriving DecidableEq, Repr

/-- Plan `RealFFTPlan`: its `size`. -/
structure RealFFTPlan where
  size : ℕ
  deriving DecidableEq, Repr

/-- Status codes of `StochasticCrossCorrelation.h` named by the test. -/
inductive Status where
  | success
  | ENULLP
  | EZEROLEN
  | ENONPOSDELTAT
  | ENONZEROHETERO
  | EMMLEN
  deriving DecidableEq, Repr

/-- Bin `k` of the discrete Fourier transform of `x` (of length `M`),
`Σ_j x[j] · exp(-2πi jk/M)`, as (real part, imaginary part); `cos2pi u` and
`sin2pi u` stand for `cos(2πu)` and `sin(2πu)`. -/
def dftBin (cos2pi sin2pi : ℚ → ℚ) (x : List ℚ) (k : ℕ) : ℚ × ℚ :=
  (∑ j in Finset.range x.length, x.getD j 0 * cos2pi ((j : ℚ) * (k : ℚ) / (x.length : ℚ)),
    -∑ j in Finset.range x.length, x.getD j 0 * sin2pi ((j : ℚ) * (k : ℚ) / (x.length : ℚ)))

/-- Modelled from the spec: the routine `LALSZeroPadAndFFT`, whose source is
not among the files; only its test program is.  From the description and the
checks of the test: a real time series of length `N` is zero-padded to
`2N - 1` samples and Fourier transformed with a forward real plan of size
`2N - 1` into a complex frequency series of length `N`, scaled by `δt`, with
`f0 = 0`, `deltaF = 1/((2N-1)·δt)`, the epoch of the input and the units of
the input times seconds.  The error conditions are tested in the order of the
list of the test: null pointers (`ENULLP`), zero length (`EZEROLEN`),
non-positive time spacing (`ENONPOSDELTAT`), non-zero heterodyne frequency
(`ENONZEROHETERO`), output length other than `N` and plan size other than
`2N - 1` (`EMMLEN`).  The result is the status and the output series. -/
def LALSZeroPadAndFFT (cos2pi sin2pi : ℚ → ℚ) (output : Option COMPLEX8FrequencySeries)
    (input : Option REAL4TimeSeries) (fftPlan : Option RealFFTPlan) :
    Status × Option COMPLEX8FrequencySeries :=
  match output, input, fftPlan with
  | some out, some inp, some plan =>
    match out.data, inp.data with
    | some outVec, some inVec =>
      match outVec.data, inVec.data with
      | some _, some h =>
        if inVec.length = 0 then (Status.EZEROLEN, output)
        else if inp.deltaT ≤ 0 then (Status.ENONPOSDELTAT, output)
        else if inp.f0 ≠ 0 then (Status.ENONZEROHETERO, output)
        else if outVec.length ≠ inVec.length then (Status.EMMLEN, output)
        else if plan.size ≠ 2 * inVec.length - 1 then (Status.EMMLEN, output)
        else
          (Status.success,
            some { epoch := inp.epoch
                   f0 := inp.f0
                   deltaF := 1 / (((2 * inVec.length - 1 : ℕ) : ℚ) * inp.deltaT)
                   sampleUnits := unitMultiply inp.sampleUnits lalSecondUnit
                   data := some
                     { length := inVec.length
                       data := some ((List.range inVec.length).map fun k =>
                         (inp.deltaT
                            * (dftBin cos2pi sin2pi
                                (h ++ List.replicate (inVec.length - 1) 0) k).1,
                          inp.deltaT
                            * (dftBin cos2pi sin2pi
                                (h ++ List.replicate (inVec.length - 1) 0) k).2)) } })
      | _, _ => (Status.ENULLP, output)
    | _, _ => (Status.ENULLP, output)
  | _, _, _ => (Status.ENULLP, output)

end Stochastic

/-! # LALInferenceInitBurst.c: the time prior -/

namespace LALInferenceInitBurst

/-- Lines 164-223 of `LALInferenceInitBurstModel`: the value of `endtime` used
for the priors.  `trigtime` is the value of `--trigtime` when given,
`hasTable` tells whether an injection table was read and `endtime_from_inj` is
the injection time (`-1` when none was set); `none` when the function exits at
line 216. -/
def resolveEndtime (trigtime : Option ℚ) (hasTable : Bool) (endtime_from_inj : ℚ) : Option ℚ :=
  let endtime : ℚ := match trigtime with
    | some v => v
    | none => -1
  if ¬ (hasTable = true ∨ endtime ≥ 0) then none
  else if endtime_from_inj ≠ endtime then
    if endtime_from_inj > 0 ∧ endtime > 0 then some endtime
    else if endtime_from_inj > 0 then some endtime_from_inj
    else some endtime
  else some endtime

/-- The locals `dt`, `timeMin` and `timeMax` when the prior of `time` is
registered at line 282. -/
structure TimePriorLocals where
  dt : ℚ
  timeMin : ℚ
  timeMax : ℚ
  deriving DecidableEq, Repr

/-- Lines 274-282 in their order: `dt = 0.1`, `timeMin = endtime - 0.5*dt`,
`timeMax = endtime + 0.5*dt`, then `dt` is replaced by the value of `--dt`
when the option is given (`dtArg`), then `timeMin` and `timeMax` are passed to
`LALInferenceRegisterUniformVariableREAL8` for `time`. -/
def timePriorLocals (endtime : ℚ) (dtArg : Option ℚ) : TimePriorLocals :=
  let dt : ℚ := 1 / 10
  let timeMin := endtime - 1 / 2 * dt
  let timeMax := endtime + 1 / 2 * dt
  let dt := match dtArg with
    | some v => v
    | none => dt
  { dt := dt, timeMin := timeMin, timeMax := timeMax }

/-- The interval of the help text (lines 122-123): centred on the trigger
time, of width `--dt`, `0.2` s when the option is absent. -/
def documentedTimePrior (trigtime : ℚ) (dtArg : Option ℚ) : ℚ × ℚ :=
  (trigtime - dtArg.getD (1 / 5) / 2, trigtime + dtArg.getD (1 / 5) / 2)

end LALInferenceInitBurst

/-! # Theorems -/

namespace HoughValidate

/-! ## Lemmas on the number-count loop -/

theorem binIndex_of_bounds (f timeBase : ℚ) (sftFminBin : ℤ)
    (h0 : 0 ≤ binFloor f timeBase sftFminBin)
    (h1 : binFloor f timeBase sftFminBin < 2 ^ 32) :
    binIndex f timeBase sftFminBin = some (binFloor f timeBase sftFminBin).toNat := by
  unfold binIndex
  simp only []
  rw [if_pos ⟨h0, h1⟩]

theorem binIndex_eq_some (f timeBase : ℚ) (sftFminBin : ℤ) (n : ℕ)
    (h : binIndex f timeBase sftFminBin = some n) :
    binFloor f timeBase sftFminBin = (n : ℤ) := by
  unfold binIndex at h
  simp only at h
  split_ifs at h with hr
  have := Option.some.inj h
  omega

theorem numberCountStep_inRange (pgV : List UCHARPeakGram) (foft : List ℚ)
    (timeBase : ℚ) (sftFminBin : ℤ) (j c : ℕ) (pg : UCHARPeakGram) (f : ℚ)
    (hpg : pgV[j]? = some pg) (hf : foft[j]? = some f)
    (h0 : 0 ≤ binFloor f timeBase sftFminBin)
    (h1 : binFloor f timeBase sftFminBin < (pg.data.length : ℤ))
    (h2 : pg.data.length < 2 ^ 32) :
    numberCountStep pgV foft timeBase sftFminBin j c
      = some (wrapUINT4 (c + peakAt pgV foft timeBase sftFminBin j)) := by
  have hlt : binFloor f timeBase sftFminBin < 2 ^ 32 := by
    have : (pg.data.length : ℤ) < 2 ^ 32 := by exact_mod_cast h2
    omega
  have hn : (binFloor f timeBase sftFminBin).toNat < pg.data.length := by omega
  have hget : pg.data[(binFloor f timeBase sftFminBin).toNat]?
      = some (pg.data.getD (binFloor f timeBase sftFminBin).toNat 0) := by
    rw [List.getD_eq_getElem _ _ hn, List.getElem?_eq_getElem hn]
  simp only [numberCountStep, hpg, hf, binIndex_of_bounds f timeBase sftFminBin h0 hlt, peakAt,
    h0, if_true, hget]

theorem numberCountStep_outOfRange (pgV : List UCHARPeakGram) (foft : List ℚ)
    (timeBase : ℚ) (sftFminBin : ℤ) (j c : ℕ)
    (h : ¬ InRange pgV foft timeBase sftFminBin j) :
    numberCountStep pgV foft timeBase sftFminBin j c = none := by
  unfold numberCountStep
  cases hpg : pgV[j]? with
  | none => rfl
  | some pg =>
    cases hf : foft[j]? with
    | none => rfl
    | some f =>
      cases hi : binIndex f timeBase sftFminBin with
      | none => simp only [hi]
      | some n =>
        have hr := binIndex_eq_some f timeBase sftFminBin n hi
        cases hb : pg.data[n]? with
        | none => simp only [hi, hb]
        | some b =>
          exfalso
          apply h
          have hn : n < pg.data.length := by
            by_contra hge
            rw [List.getElem?_eq_none (by omega)] at hb
            exact Option.noConfusion hb
          exact ⟨pg, f, hpg, hf, by omega, by omega⟩

/-- A segment whose predicted bin is out of range makes the whole loop
undefined, whatever the other segments hold. -/
theorem numberCountLoop_outOfRange (pgV : List UCHARPeakGram) (foft : List ℚ)
    (timeBase : ℚ) (sftFminBin : ℤ) (i : ℕ)
    (h : ¬ InRange pgV foft timeBase sftFminBin i) :
    ∀ (n j c : ℕ), j ≤ i → i < j + n →
      numberCountLoop pgV foft timeBase sftFminBin n j c = none := by
  intro n
  induction n with
  | zero => intro j c h1 h2; omega
  | succ n ih =>
    intro j c h1 h2
    unfold numberCountLoop
    cases hs : numberCountStep pgV foft timeBase sftFminBin j c with
    | none => rfl
    | some c1 =>
      have hne : j ≠ i := by
        intro he
        subst he
        rw [numberCountStep_outOfRange pgV foft timeBase sftFminBin j c h] at hs
        exact Option.noConfusion hs
      exact ih (j + 1) c1 (by omega) (by omega)

theorem peakAt_le_one (pgV : List UCHARPeakGram) (foft : List ℚ) (timeBase : ℚ)
    (sftFminBin : ℤ) (j : ℕ)
    (hb : ∀ pg ∈ pgV, ∀ b ∈ pg.data, b ≤ 1) :
    peakAt pgV foft timeBase sftFminBin j ≤ 1 := by
  unfold peakAt
  cases hpg : pgV[j]? with
  | none => simp
  | some pg =>
    cases hf : foft[j]? with
    | none => simp
    | some f =>
      simp only
      split_ifs with h0
      · have hmem : pg ∈ pgV := List.getElem?_mem hpg
        by_cases hn : (binFloor f timeBase sftFminBin).toNat < pg.data.length
        · rw [List.getD_eq_getElem _ _ hn]
          exact hb pg hmem _ (List.getElem_mem _)
        · rw [List.getD_eq_default _ _ (by omega)]
          omega
      · omega

/-- With every predicted bin in range and no `UINT4` overflow the loop adds
the contributions of the segments it visits. -/
theorem numberCountLoop_inRange (pgV : List UCHARPeakGram) (foft : List ℚ)
    (timeBase : ℚ) (sftFminBin : ℤ)
    (hlen : ∀ pg ∈ pgV, pg.data.length < 2 ^ 32) :
    ∀ (n j c : ℕ),
      (∀ i, j ≤ i → i < j + n → InRange pgV foft timeBase sftFminBin i) →
      c + ∑ i in Finset.range n, peakAt pgV foft timeBase sftFminBin (j + i) < 2 ^ 32 →
      numberCountLoop pgV foft timeBase sftFminBin n j c
        = some (c + ∑ i in Finset.range n, peakAt pgV foft timeBase sftFminBin (j + i)) := by
  intro n
  induction n with
  | zero => intro j c _ _; simp [numberCountLoop]
  | succ n ih =>
    intro j c hr hs
    obtain ⟨pg, f, hpg, hf, h0, h1⟩ := hr j (le_refl j) (by omega)
    have hmem : pg ∈ pgV := List.getElem?_mem hpg
    rw [Finset.sum_range_succ'] at hs ⊢
    simp only [Nat.add_zero] at hs ⊢
    have hstep := numberCountStep_inRange pgV foft timeBase sftFminBin j c pg f hpg hf h0 h1
      (hlen pg hmem)
    have hsmall : c + peakAt pgV foft timeBase sftFminBin j < 2 ^ 32 := by omega
    unfold numberCountLoop
    rw [hstep]
    simp only [wrapUINT4, Nat.mod_eq_of_lt hsmall]
    have hsum : ∀ k ∈ Finset.range n,
        peakAt pgV foft timeBase sftFminBin (j + (k + 1))
          = peakAt pgV foft timeBase sftFminBin (j + 1 + k) := by
      intro k _
      congr 1
      omega
    rw [Finset.sum_congr rfl hsum] at hs ⊢
    rw [ih (j + 1) (c + peakAt pgV foft timeBase sftFminBin j)
      (fun i hi1 hi2 => hr i (by omega) (by omega)) (by omega)]
    congr 1
    omega

/-! ## Frequency path and rounding lemmas -/

theorem roundHalfEven_error (y : ℚ) : |(roundHalfEven y : ℚ) - y| ≤ 1 / 2 := by
  have h1 := Int.floor_le y
  have h2 := Int.lt_floor_add_one y
  unfold roundHalfEven
  rw [abs_le]
  split_ifs with ha hb hc
  · constructor <;> linarith
  · push_cast
    constructor <;> linarith
  · constructor <;> linarith
  · push_cast
    constructor <;> linarith

theorem ulpREAL8_pos (q : ℚ) : 0 < ulpREAL8 q := by
  unfold ulpREAL8
  positivity

theorem roundREAL8_zero : roundREAL8 0 = 0 := by
  simp [roundREAL8, roundHalfEven]

/-- Rounding to the nearest double moves a value by at most half a unit in the
last place. -/
theorem roundREAL8_error (q : ℚ) :
    |roundREAL8 q - q| ≤ |q| / 2 ^ 53 + 1 / 2 ^ 1075 := by
  by_cases hq : q = 0
  · subst hq
    rw [roundREAL8_zero]
    norm_num
  have hu := ulpREAL8_pos q
  have hpos : (0 : ℚ) < |q| := abs_pos.2 hq
  have herr : |roundREAL8 q - q| ≤ ulpREAL8 q / 2 := by
    have h := roundHalfEven_error (q / ulpREAL8 q)
    have e : roundREAL8 q - q
        = ((roundHalfEven (q / ulpREAL8 q) : ℚ) - q / ulpREAL8 q) * ulpREAL8 q := by
      unfold roundREAL8
      field_simp
    rw [e, abs_mul, abs_of_pos hu]
    calc |(roundHalfEven (q / ulpREAL8 q) : ℚ) - q / ulpREAL8 q| * ulpREAL8 q
        ≤ 1 / 2 * ulpREAL8 q := mul_le_mul_of_nonneg_right h hu.le
      _ = ulpREAL8 q / 2 := by ring
  have hulp : ulpREAL8 q ≤ |q| / 2 ^ 52 + 1 / 2 ^ 1074 := by
    unfold ulpREAL8
    rcases le_total (Int.log 2 |q| - 52) (-1074) with hm | hm
    · rw [max_eq_right hm]
      have : (2 : ℚ) ^ (-1074 : ℤ) = 1 / 2 ^ 1074 := by
        rw [zpow_neg, one_div]
        norm_cast
      rw [this]
      have : 0 ≤ |q| / 2 ^ 52 := by positivity
      linarith
    · rw [max_eq_left hm]
      have hlog : ((2 : ℕ) : ℚ) ^ Int.log 2 |q| ≤ |q| := Int.zpow_log_le_self (by norm_num) hpos
      have e : (2 : ℚ) ^ (Int.log 2 |q| - 52) = (2 : ℚ) ^ Int.log 2 |q| / 2 ^ 52 := by
        rw [zpow_sub₀ (by norm_num : (2 : ℚ) ≠ 0)]
        norm_cast
      rw [e]
      have h1 : (2 : ℚ) ^ Int.log 2 |q| / 2 ^ 52 ≤ |q| / 2 ^ 52 := by
        apply div_le_div_of_nonneg_right _ (by positivity)
        exact_mod_cast hlog
      have : (0 : ℚ) ≤ 1 / 2 ^ 1074 := by positivity
      linarith
  have e2 : (|q| / 2 ^ 52 + 1 / 2 ^ 1074) / 2 = |q| / 2 ^ 53 + 1 / 2 ^ 1075 := by
    ring
  linarith

/-- The value floored at line 465 lies within the slack of the exact sum. -/
theorem line465_error (f timeBase : ℚ) (sftFminBin : ℤ) :
    |roundREAL8 (roundREAL8 (roundREAL8 (f * timeBase) - (sftFminBin : ℚ)) + 1 / 2)
        - (f * timeBase - (sftFminBin : ℚ) + 1 / 2)|
      ≤ line465Slack f timeBase sftFminBin := by
  set a : ℚ := f * timeBase with ha
  set m : ℚ := (sftFminBin : ℚ) with hm
  set p : ℚ := roundREAL8 a with hp
  set d : ℚ := roundREAL8 (p - m) with hd
  set s : ℚ := roundREAL8 (d + 1 / 2) with hs
  have e1 := roundREAL8_error a
  have e2 := roundREAL8_error (p - m)
  have e3 := roundREAL8_error (d + 1 / 2)
  rw [← hp] at e1
  rw [← hd] at e2
  rw [← hs] at e3
  have hη : (1 : ℚ) / 2 ^ 1075 ≤ 1 / 2 ^ 56 := by norm_num
  have t1 : |p - m| ≤ |p - a| + |a| + |m| := by
    have : p - m = (p - a) + a + (-m) := by ring
    rw [this]
    calc |p - a + a + -m| ≤ |p - a + a| + |-m| := abs_add _ _
      _ ≤ |p - a| + |a| + |-m| := by linarith [abs_add (p - a) a]
      _ = |p - a| + |a| + |m| := by rw [abs_neg]
  have t2 : |d + 1 / 2| ≤ |d - (p - m)| + |p - m| + 1 / 2 := by
    have : d + 1 / 2 = (d - (p - m)) + (p - m) + 1 / 2 := by ring
    rw [this]
    calc |d - (p - m) + (p - m) + 1 / 2| ≤ |d - (p - m) + (p - m)| + |(1 / 2 : ℚ)| := abs_add _ _
      _ ≤ |d - (p - m)| + |p - m| + |(1 / 2 : ℚ)| := by linarith [abs_add (d - (p - m)) (p - m)]
      _ = |d - (p - m)| + |p - m| + 1 / 2 := by norm_num
  have t3 : |s - (a - m + 1 / 2)| ≤ |s - (d + 1 / 2)| + |d - (p - m)| + |p - a| := by
    have : s - (a - m + 1 / 2) = (s - (d + 1 / 2)) + (d - (p - m)) + (p - a) := by ring
    rw [this]
    calc |s - (d + 1 / 2) + (d - (p - m)) + (p - a)|
        ≤ |s - (d + 1 / 2) + (d - (p - m))| + |p - a| := abs_add _ _
      _ ≤ |s - (d + 1 / 2)| + |d - (p - m)| + |p - a| := by
        linarith [abs_add (s - (d + 1 / 2)) (d - (p - m))]
  have hA := abs_nonneg a
  have hB := abs_nonneg m
  unfold line465Slack
  rw [← ha, ← hm]
  have : (|a| + |m| + 1) / 2 ^ 51 = (|a| + |m| + 1) * (1 / 2 ^ 51) := by ring
  rw [this]
  norm_num at e1 e2 e3 hη ⊢
  linarith


theorem roundHalfEven_intCast (n : ℤ) : roundHalfEven (n : ℚ) = n := by
  unfold roundHalfEven
  rw [Int.floor_intCast, sub_self, if_pos (by norm_num)]

/-- A value `k · 2^j` with `|k| < 2^53` and `j ≥ -1074` is a double. -/
theorem roundREAL8_of_dyadic (k j : ℤ) (hk : |k| < 2 ^ 53) (hj : -1074 ≤ j) :
    roundREAL8 ((k : ℚ) * (2 : ℚ) ^ j) = (k : ℚ) * (2 : ℚ) ^ j := by
  by_cases hk0 : k = 0
  · subst hk0
    simp [roundREAL8, roundHalfEven]
  set q : ℚ := (k : ℚ) * (2 : ℚ) ^ j with hq
  have h2j : (0 : ℚ) < (2 : ℚ) ^ j := by positivity
  have hpos : (0 : ℚ) < |q| := by
    rw [hq, abs_mul, abs_of_pos h2j]
    have : (0 : ℚ) < |(k : ℚ)| := abs_pos.2 (by exact_mod_cast hk0)
    positivity
  have hlt : |q| < (2 : ℚ) ^ (j + 53) := by
    rw [hq, abs_mul, abs_of_pos h2j, zpow_add₀ (by norm_num : (2 : ℚ) ≠ 0), mul_comm]
    have hk1 : |(k : ℚ)| < 2 ^ 53 := by exact_mod_cast hk
    have : (2 : ℚ) ^ (53 : ℤ) = 2 ^ 53 := by norm_num
    rw [this]
    exact mul_lt_mul_of_pos_left hk1 h2j
  have hlog : Int.log 2 |q| < j + 53 :=
    (Int.lt_zpow_iff_log_lt (by norm_num) hpos).1 (by exact_mod_cast hlt)
  have hu : max (Int.log 2 |q| - 52) (-1074) ≤ j := max_le (by omega) hj
  set u : ℤ := max (Int.log 2 |q| - 52) (-1074) with hudef
  have hdiv : q / (2 : ℚ) ^ u = (((k * 2 ^ (j - u).toNat : ℤ)) : ℚ) := by
    have h1 : ((j - u).toNat : ℤ) = j - u := Int.toNat_of_nonneg (by omega)
    have h2 : (2 : ℚ) ^ (j - u).toNat = (2 : ℚ) ^ (j - u) := by
      rw [← zpow_natCast, h1]
    push_cast
    rw [h2, hq, zpow_sub₀ (by norm_num : (2 : ℚ) ≠ 0)]
    ring
  unfold roundREAL8 ulpREAL8
  rw [← hudef, hdiv, roundHalfEven_intCast, ← hdiv]
  field_simp

theorem roundREAL8_intCast (n : ℤ) (h : |n| < 2 ^ 53) : roundREAL8 (n : ℚ) = n := by
  have := roundREAL8_of_dyadic n 0 h (by norm_num)
  simpa using this

theorem roundREAL8_intCast_add_half (n : ℤ) (h : |n| < 2 ^ 52) :
    roundREAL8 ((n : ℚ) + 1 / 2) = (n : ℚ) + 1 / 2 := by
  have hk : |2 * n + 1| < 2 ^ 53 := by
    rw [abs_lt] at h ⊢
    constructor <;> omega
  have := roundREAL8_of_dyadic (2 * n + 1) (-1) hk (by norm_num)
  have e : ((2 * n + 1 : ℤ) : ℚ) * (2 : ℚ) ^ (-1 : ℤ) = (n : ℚ) + 1 / 2 := by
    push_cast
    rw [zpow_neg_one]
    ring
  rwa [e] at this

/-- The result of a `REAL8` operation whose exact value `q` lies in the binade
`[2^e, 2^(e+1))` of the normal range. -/
theorem roundREAL8_of_binade (q : ℚ) (e n : ℤ) (h1 : (2 : ℚ) ^ e ≤ |q|)
    (h2 : |q| < (2 : ℚ) ^ (e + 1)) (he : -1022 ≤ e)
    (hn : roundHalfEven (q / (2 : ℚ) ^ (e - 52)) = n) :
    roundREAL8 q = (n : ℚ) * (2 : ℚ) ^ (e - 52) := by
  have hpos : (0 : ℚ) < |q| := lt_of_lt_of_le (by positivity) h1
  have ha : e ≤ Int.log 2 |q| :=
    (Int.zpow_le_iff_le_log (by norm_num) hpos).1 (by exact_mod_cast h1)
  have hb : Int.log 2 |q| < e + 1 :=
    (Int.lt_zpow_iff_log_lt (by norm_num) hpos).1 (by exact_mod_cast h2)
  have hlog : Int.log 2 |q| = e := by omega
  unfold roundREAL8 ulpREAL8
  rw [hlog, max_eq_left (by omega), hn]

theorem line465Exact_intCast (n : ℤ) (h : |n| < 2 ^ 52) : Line465Exact (n : ℚ) 1 0 := by
  have h53 : |n| < 2 ^ 53 := lt_trans h (by norm_num)
  have e1 : (n : ℚ) * 1 = (n : ℚ) := mul_one _
  have e2 : (n : ℚ) * 1 - ((0 : ℤ) : ℚ) = (n : ℚ) := by simp
  refine ⟨?_, ?_, ?_⟩
  · rw [e1]; exact roundREAL8_intCast n h53
  · rw [e2]; exact roundREAL8_intCast n h53
  · rw [e2]; exact roundREAL8_intCast_add_half n h

theorem binFloor_of_exact (f timeBase : ℚ) (sftFminBin : ℤ)
    (h : Line465Exact f timeBase sftFminBin) :
    binFloor f timeBase sftFminBin = ⌊f * timeBase - (sftFminBin : ℚ) + 1 / 2⌋ := by
  unfold binFloor
  rw [h.1, h.2.1, h.2.2]

theorem floor_eq_of_close (s y S : ℚ) (herr : |s - y| ≤ S)
    (h : ∀ n : ℤ, S < |y - (n : ℚ)|) : ⌊s⌋ = ⌊y⌋ := by
  have hlo := h ⌊y⌋
  have hhi := h (⌊y⌋ + 1)
  have h1 := Int.floor_le y
  have h2 := Int.lt_floor_add_one y
  rw [abs_of_nonneg (by linarith)] at hlo
  rw [abs_of_nonpos (by push_cast; linarith)] at hhi
  push_cast at hhi
  obtain ⟨he1, he2⟩ := abs_le.1 herr
  rw [Int.floor_eq_iff]
  constructor <;> linarith

/-- Where line 465 is exact, or its argument is farther than the slack from
every half-way point, the bin is the floor of the exact sum. -/
theorem binFloor_of_safe (f timeBase : ℚ) (sftFminBin : ℤ)
    (h : Line465Safe f timeBase sftFminBin) :
    binFloor f timeBase sftFminBin = ⌊f * timeBase - (sftFminBin : ℚ) + 1 / 2⌋ := by
  rcases h with h | h
  · exact binFloor_of_exact f timeBase sftFminBin h
  · exact floor_eq_of_close _ _ _ (line465_error f timeBase sftFminBin) h

theorem binFloor_intCast (n : ℤ) (h : |n| < 2 ^ 52) : binFloor (n : ℚ) 1 0 = n := by
  rw [binFloor_of_exact _ _ _ (line465Exact_intCast n h)]
  have e : ((n : ℚ) * 1 - ((0 : ℤ) : ℚ) + 1 / 2) = ((n : ℚ) + 1 / 2) := by
    push_cast
    ring
  rw [e, Int.floor_eq_iff]
  constructor <;> norm_num

theorem floor_eq_roundHalfAway (x : ℚ) (h : 0 ≤ x ∨ ∀ n : ℤ, x + 1 / 2 ≠ (n : ℚ)) :
    ⌊x + 1 / 2⌋ = roundHalfAway x := by
  unfold roundHalfAway
  by_cases h0 : 0 ≤ x
  · rw [if_pos h0]
  · rw [if_neg h0]
    have hn : ∀ n : ℤ, x + 1 / 2 ≠ (n : ℚ) := by
      rcases h with h | h
      · exact absurd h h0
      · exact h
    symm
    rw [Int.ceil_eq_iff]
    have h1 := Int.floor_le (x + 1 / 2)
    have h2 := Int.lt_floor_add_one (x + 1 / 2)
    have h3 : ((⌊x + 1 / 2⌋ : ℤ) : ℚ) ≠ x + 1 / 2 := fun e => hn _ e.symm
    have h4 : ((⌊x + 1 / 2⌋ : ℤ) : ℚ) < x + 1 / 2 := lt_of_le_of_ne h1 h3
    constructor <;> linarith

/-- A predicted bin that is not negative is the floor of the argument plus one
half. -/
theorem floor_eq_roundHalfAway_of_nonneg (x : ℚ) (h : 0 ≤ roundHalfAway x) :
    ⌊x + 1 / 2⌋ = roundHalfAway x := by
  by_cases h0 : 0 ≤ x
  · exact floor_eq_roundHalfAway x (Or.inl h0)
  · apply floor_eq_roundHalfAway x
    right
    intro n hn
    unfold roundHalfAway at h
    rw [if_neg h0] at h
    have hx : x - 1 / 2 = ((n - 1 : ℤ) : ℚ) := by
      push_cast
      linarith
    rw [hx, Int.ceil_intCast] at h
    have hn1 : (1 : ℤ) ≤ n := by omega
    have : (1 : ℚ) ≤ (n : ℚ) := by exact_mod_cast hn1
    apply h0
    linarith

theorem awayFromTies_ne (f timeBase : ℚ) (sftFminBin : ℤ)
    (h : AwayFromTies f timeBase sftFminBin) (n : ℤ) :
    f * timeBase - (sftFminBin : ℚ) + 1 / 2 ≠ (n : ℚ) := by
  intro e
  have hn := h n
  rw [e, sub_self, abs_zero] at hn
  have : 0 ≤ line465Slack f timeBase sftFminBin := by
    unfold line465Slack
    positivity
  linarith

theorem binFloor_below_half : binFloor (1 / 2 - 1 / 2 ^ 54) 1 0 = 1 := by
  have e1 : ((1 : ℚ) / 2 - 1 / 2 ^ 54) * 1 = ((2 ^ 53 - 1 : ℤ) : ℚ) * (2 : ℚ) ^ (-54 : ℤ) := by
    rw [zpow_neg]
    norm_num
  have r1 : roundREAL8 (((1 : ℚ) / 2 - 1 / 2 ^ 54) * 1) = (1 : ℚ) / 2 - 1 / 2 ^ 54 := by
    rw [e1, roundREAL8_of_dyadic _ _ (by norm_num) (by norm_num), ← e1, mul_one]
  have e2 : (1 : ℚ) / 2 - 1 / 2 ^ 54 - ((0 : ℤ) : ℚ) = ((1 : ℚ) / 2 - 1 / 2 ^ 54) * 1 := by
    norm_num
  have r3 : roundREAL8 ((1 : ℚ) / 2 - 1 / 2 ^ 54 + 1 / 2) = 1 := by
    have hn : roundHalfEven (((1 : ℚ) / 2 - 1 / 2 ^ 54 + 1 / 2) / (2 : ℚ) ^ ((-1 : ℤ) - 52))
        = 2 ^ 53 := by
      have ev : ((1 : ℚ) / 2 - 1 / 2 ^ 54 + 1 / 2) / (2 : ℚ) ^ ((-1 : ℤ) - 52)
          = 18014398509481983 / 2 := by
        rw [show ((-1 : ℤ) - 52) = -53 by norm_num, zpow_neg]
        norm_num
      have hfl : ⌊(18014398509481983 / 2 : ℚ)⌋ = 9007199254740991 := by
        rw [Int.floor_eq_iff]
        constructor <;> norm_num
      rw [ev]
      unfold roundHalfEven
      rw [hfl]
      norm_num
    have := roundREAL8_of_binade ((1 : ℚ) / 2 - 1 / 2 ^ 54 + 1 / 2) (-1) (2 ^ 53)
      (by rw [zpow_neg]; norm_num [abs_of_pos]) (by norm_num [abs_of_pos]) (by norm_num) hn
    rw [this, show ((-1 : ℤ) - 52) = -53 by norm_num, zpow_neg]
    norm_num
  unfold binFloor
  rw [r1, e2, r1, r3]
  norm_num

theorem spinLoop_zero_f0new (cs : List ℚ) (hs : ∀ c ∈ cs, c = 0) :
    ∀ (i : ℕ) (s : SpinState), (spinLoop i cs s).f0new = s.f0new := by
  induction cs with
  | nil => intro i s; rfl
  | cons c cs ih =>
    intro i s
    have hc : c = 0 := hs c (List.mem_cons_self c cs)
    have hcs : ∀ d ∈ cs, d = 0 := fun d hd => hs d (List.mem_cons_of_mem c hd)
    rw [spinLoop, ih hcs (i + 1) (spinStep i c s)]
    simp [spinStep, hc]

theorem foftEntry_zero (cos sin : ℚ → ℚ) (t : HoughPulsarTemplate) (timeDiff : ℚ)
    (hs : ∀ c ∈ t.spindown, c = 0) :
    foftEntry cos sin t ⟨0, 0, 0⟩ timeDiff = t.f0 := by
  simp [foftEntry, f0newAt, spinLoop_zero_f0new t.spindown hs]

theorem predictedIndex_natCast (n : ℕ) : predictedIndex (n : ℚ) 1 0 = (n : ℤ) := by
  have hx : (n : ℚ) * 1 - ((0 : ℤ) : ℚ) = (n : ℚ) := by simp
  unfold predictedIndex roundHalfAway
  rw [hx, if_pos (by positivity), Int.floor_eq_iff]
  constructor <;> push_cast <;> linarith

/-- C1 (violated by the code): a count in `[0, M]` is not produced for every
template.  With one segment of ten bins, all zero, and a zero-velocity,
zero-spin-down template of `f0 = 10` (`timeBase = 1`, `sftFminBin = 0`) the
predicted bin is `10 = spectrumLength`; line 468 reads `pg1->data[10]`, past
the end of the peakgram, and no defined count results. -/
theorem templateCount_undefined_past_end :
    templateCount (fun _ => 1) (fun _ => 0) ⟨10, 0, 0, [0]⟩ [⟨0, 0, 0⟩] [0]
      [⟨[0, 0, 0, 0, 0, 0, 0, 0, 0, 0]⟩] 1 0 1 = none := by
  have hf : frequencyPath (fun _ => 1) (fun _ => 0) ⟨10, 0, 0, [0]⟩ [⟨0, 0, 0⟩] [0] = [10] := by
    simp [frequencyPath, foftEntry_zero]
  have hb : binFloor (10 : ℚ) 1 0 = 10 := by exact_mod_cast binFloor_intCast 10 (by norm_num)
  simp [templateCount, hf, numberCount, numberCountLoop, numberCountStep, binIndex, hb]

/-- C2 (violated by the code): on the peakgrams of the section 8 scenario, a
frequency path whose middle segment predicts bin `10 = spectrumLength`, or bin
`-1`, leaves the count undefined, where the claim asks for `0 + 0 + 1 = 1`:
the loop of lines 459-469 has no range check before `pg1->data[index]`. -/
theorem numberCount_undefined_at_boundary :
    numberCount scenarioPgV [1, 10, 1] 1 0 3 = none ∧
    numberCount scenarioPgV [1, -1, 1] 1 0 3 = none ∧
    binFloor 10 1 0 = 10 ∧ binFloor (-1) 1 0 = -1 ∧
    peakAt scenarioPgV [1, 10, 1] 1 0 0 + peakAt scenarioPgV [1, 10, 1] 1 0 1
      + peakAt scenarioPgV [1, 10, 1] 1 0 2 = 1 ∧
    peakAtPredicted scenarioPgV [1, 10, 1] 1 0 0 + peakAtPredicted scenarioPgV [1, 10, 1] 1 0 1
      + peakAtPredicted scenarioPgV [1, 10, 1] 1 0 2 = 1 := by
  have h1 : binFloor (1 : ℚ) 1 0 = 1 := by exact_mod_cast binFloor_intCast 1 (by norm_num)
  have h10 : binFloor (10 : ℚ) 1 0 = 10 := by exact_mod_cast binFloor_intCast 10 (by norm_num)
  have hm : binFloor (-1 : ℚ) 1 0 = -1 := by exact_mod_cast binFloor_intCast (-1) (by norm_num)
  have p1 : predictedIndex (1 : ℚ) 1 0 = 1 := by exact_mod_cast predictedIndex_natCast 1
  have p10 : predictedIndex (10 : ℚ) 1 0 = 10 := by exact_mod_cast predictedIndex_natCast 10
  refine ⟨?_, ?_, h10, hm, ?_, ?_⟩
  · simp [numberCount, numberCountLoop, numberCountStep, binIndex, h1, h10, scenarioPgV,
      wrapUINT4]
  · simp [numberCount, numberCountLoop, numberCountStep, binIndex, h1, hm, scenarioPgV,
      wrapUINT4]
  · simp [peakAt, scenarioPgV, h1, h10]
  · simp [peakAtPredicted, scenarioPgV, p1, p10]

theorem binFloor_eq_predictedIndex (f timeBase : ℚ) (sftFminBin : ℤ)
    (hs : Line465Safe f timeBase sftFminBin)
    (h0 : 0 ≤ predictedIndex f timeBase sftFminBin) :
    binFloor f timeBase sftFminBin = predictedIndex f timeBase sftFminBin := by
  rw [binFloor_of_safe f timeBase sftFminBin hs]
  exact floor_eq_roundHalfAway_of_nonneg _ h0

/-- A segment whose predicted bin is in range and on whose frequency line 465
is safe from rounding has the predicted bin read. -/
theorem peakAt_eq_peakAtPredicted (pgV : List UCHARPeakGram) (foft : List ℚ) (timeBase : ℚ)
    (sftFminBin : ℤ) (j : ℕ)
    (hs : ∀ f ∈ foft, Line465Safe f timeBase sftFminBin)
    (hr : PredictedInRange pgV foft timeBase sftFminBin j) :
    InRange pgV foft timeBase sftFminBin j ∧
    peakAt pgV foft timeBase sftFminBin j = peakAtPredicted pgV foft timeBase sftFminBin j := by
  obtain ⟨pg, f, hpg, hf, h0, h1⟩ := hr
  have hb := binFloor_eq_predictedIndex f timeBase sftFminBin (hs f (List.getElem?_mem hf)) h0
  refine ⟨⟨pg, f, hpg, hf, by rw [hb]; exact h0, by rw [hb]; exact h1⟩, ?_⟩
  simp only [peakAt, peakAtPredicted, hpg, hf, hb]

/-- C3 as stated fails: one segment with the peakgram `[0, 1]`, `timeBase = 1`,
`fMinBin = 0` and the predicted frequency `1/2 - 2^(-54)` (the double
`0.49999999999999994`).  The predicted bin `round(f * timeBase - fMinBin)` is
`0`, in range, and `peakgram[0] = 0`; at line 465 the `REAL8` sum `f + 0.5`
rounds to `1.0`, so bin `1` is read and the count is `1`. -/
theorem numberCount_ne_sum_peakAtPredicted :
    SegmentStoreOK [⟨[0, 1]⟩] 2 1 ∧
    (∀ j, j < 1 → PredictedInRange [⟨[0, 1]⟩] [1 / 2 - 1 / 2 ^ 54] 1 0 j) ∧
    predictedIndex (1 / 2 - 1 / 2 ^ 54) 1 0 = 0 ∧
    (∑ j in Finset.range 1, peakAtPredicted [⟨[0, 1]⟩] [1 / 2 - 1 / 2 ^ 54] 1 0 j) = 0 ∧
    numberCount [⟨[0, 1]⟩] [1 / 2 - 1 / 2 ^ 54] 1 0 1 = some 1 := by
  have hp : predictedIndex (1 / 2 - 1 / 2 ^ 54) 1 0 = 0 := by
    unfold predictedIndex roundHalfAway
    rw [if_pos (by norm_num), Int.floor_eq_iff]
    constructor <;> norm_num
  have hb := binFloor_below_half
  refine ⟨?_, ?_, hp, ?_, ?_⟩
  · refine ⟨rfl, by norm_num, by norm_num, ?_⟩
    intro pg hpg
    simp only [List.mem_singleton] at hpg
    subst hpg
    refine ⟨rfl, ?_⟩
    intro b hb1
    simp at hb1
    omega
  · intro j hj
    have hj0 : j = 0 := by omega
    subst hj0
    exact ⟨⟨[0, 1]⟩, 1 / 2 - 1 / 2 ^ 54, List.getElem?_cons_zero, List.getElem?_cons_zero,
      by rw [hp], by rw [hp]; norm_num⟩
  · rw [Finset.sum_range_one]
    simp only [peakAtPredicted, List.getElem?_cons_zero, hp]
    rfl
  · simp only [numberCount, numberCountLoop, numberCountStep, List.getElem?_cons_zero, binIndex,
      hb]
    rfl

/-- C3 amended: on a segment store with boolean peakgrams in which every
predicted bin `idx_j = round(f_j * timeBase - fMinBin)` is in range and, for
every predicted frequency, the `REAL8` operations of line 465 are exact or the
argument is farther than `(|f_j * timeBase| + |fMinBin| + 1) / 2^51` from every
half-way point, the number count is the sum over the segments `j` of
`peakgram_j[idx_j]`; and the scenario of section 8 (a zero-velocity,
zero-spin-down template predicting bin 1 in each of the three segments)
counts `0 + 1 + 1 = 2`. -/
theorem numberCount_eq_sum_predicted :
    (∀ (pgV : List UCHARPeakGram) (foft : List ℚ) (timeBase : ℚ) (sftFminBin : ℤ)
        (sftlength mObsCoh : ℕ),
      SegmentStoreOK pgV sftlength mObsCoh →
      (∀ j, j < mObsCoh → PredictedInRange pgV foft timeBase sftFminBin j) →
      (∀ f ∈ foft, Line465Safe f timeBase sftFminBin) →
      numberCount pgV foft timeBase sftFminBin mObsCoh
        = some (∑ j in Finset.range mObsCoh,
            peakAtPredicted pgV foft timeBase sftFminBin j)) ∧
    (∀ (cos sin : ℚ → ℚ) (lon lat t0 t1 t2 : ℚ),
      templateCount cos sin ⟨1, lon, lat, [0]⟩ [⟨0, 0, 0⟩, ⟨0, 0, 0⟩, ⟨0, 0, 0⟩]
        [t0, t1, t2] scenarioPgV 1 0 3 = some 2) := by
  constructor
  · intro pgV foft timeBase sftFminBin sftlength mObsCoh hok hr hs
    obtain ⟨_, hM, hL, hpg⟩ := hok
    have hlen : ∀ pg ∈ pgV, pg.data.length < 2 ^ 32 := fun pg h => by
      rw [(hpg pg h).1]; exact hL
    have hb : ∀ pg ∈ pgV, ∀ b ∈ pg.data, b ≤ 1 := fun pg h => (hpg pg h).2
    have hsum : ∑ j in Finset.range mObsCoh, peakAt pgV foft timeBase sftFminBin j
        ≤ mObsCoh := by
      calc ∑ j in Finset.range mObsCoh, peakAt pgV foft timeBase sftFminBin j
          ≤ ∑ _j in Finset.range mObsCoh, 1 :=
            Finset.sum_le_sum fun j _ => peakAt_le_one pgV foft timeBase sftFminBin j hb
        _ = mObsCoh := by simp
    have h := numberCountLoop_inRange pgV foft timeBase sftFminBin hlen mObsCoh 0 0
      (fun i _ hi =>
        (peakAt_eq_peakAtPredicted pgV foft timeBase sftFminBin i hs (hr i (by omega))).1)
      (by simp only [Nat.zero_add]; omega)
    have hcongr : ∑ j in Finset.range mObsCoh, peakAt pgV foft timeBase sftFminBin j
        = ∑ j in Finset.range mObsCoh, peakAtPredicted pgV foft timeBase sftFminBin j :=
      Finset.sum_congr rfl fun j hj =>
        (peakAt_eq_peakAtPredicted pgV foft timeBase sftFminBin j hs
          (hr j (Finset.mem_range.1 hj))).2
    rw [← hcongr]
    simpa [numberCount] using h
  · intro cos sin lon lat t0 t1 t2
    have hf : frequencyPath cos sin ⟨1, lon, lat, [0]⟩ [⟨0, 0, 0⟩, ⟨0, 0, 0⟩, ⟨0, 0, 0⟩]
        [t0, t1, t2] = [1, 1, 1] := by
      simp [frequencyPath, foftEntry_zero]
    have h1 : binFloor (1 : ℚ) 1 0 = 1 := by exact_mod_cast binFloor_intCast 1 (by norm_num)
    simp [templateCount, hf, numberCount, numberCountLoop, numberCountStep, binIndex, h1,
      scenarioPgV, wrapUINT4]

/-- Instance of C3 amended on the scenario peakgrams with the frequency path
`[2, 1, 0]`: the predicted bins are `2`, `1` and `0`, each of them a peak of
its segment, and the count is `3` (bin `0` of the three segments sums to `2`,
and so does bin `1`). -/
theorem numberCount_eq_sum_predicted_witness :
    SegmentStoreOK scenarioPgV 10 3 ∧
    (∀ j, j < 3 → PredictedInRange scenarioPgV [2, 1, 0] 1 0 j) ∧
    (∀ f ∈ [(2 : ℚ), 1, 0], Line465Safe f 1 0) ∧
    numberCount scenarioPgV [2, 1, 0] 1 0 3 = some 3 := by
  have p2 : predictedIndex (2 : ℚ) 1 0 = 2 := by exact_mod_cast predictedIndex_natCast 2
  have p1 : predictedIndex (1 : ℚ) 1 0 = 1 := by exact_mod_cast predictedIndex_natCast 1
  have p0 : predictedIndex (0 : ℚ) 1 0 = 0 := by exact_mod_cast predictedIndex_natCast 0
  have hok : SegmentStoreOK scenarioPgV 10 3 := by
    refine ⟨rfl, by norm_num, by norm_num, ?_⟩
    intro pg hpg
    simp only [scenarioPgV, List.mem_cons, List.mem_singleton, List.not_mem_nil, or_false] at hpg
    rcases hpg with h | h | h <;> subst h <;> refine ⟨rfl, ?_⟩ <;> intro b hb <;>
      simp at hb <;> omega
  have hr : ∀ j, j < 3 → PredictedInRange scenarioPgV [2, 1, 0] 1 0 j := by
    intro j hj
    interval_cases j
    · exact ⟨⟨[1, 0, 1, 0, 0, 0, 0, 0, 0, 0]⟩, 2, rfl, rfl, by rw [p2]; norm_num,
        by rw [p2]; norm_num⟩
    · exact ⟨⟨[0, 1, 0, 0, 0, 0, 0, 0, 0, 0]⟩, 1, rfl, rfl, by rw [p1]; norm_num,
        by rw [p1]; norm_num⟩
    · exact ⟨⟨[1, 1, 0, 0, 0, 0, 0, 0, 0, 0]⟩, 0, rfl, rfl, by rw [p0],
        by rw [p0]; norm_num⟩
  have hs : ∀ f ∈ [(2 : ℚ), 1, 0], Line465Safe f 1 0 := by
    intro f hf
    simp only [List.mem_cons, List.mem_singleton, List.not_mem_nil, or_false] at hf
    rcases hf with h | h | h <;> subst h
    · exact Or.inl (by exact_mod_cast line465Exact_intCast 2 (by norm_num))
    · exact Or.inl (by exact_mod_cast line465Exact_intCast 1 (by norm_num))
    · exact Or.inl (by exact_mod_cast line465Exact_intCast 0 (by norm_num))
  refine ⟨hok, hr, hs, ?_⟩
  rw [numberCount_eq_sum_predicted.1 scenarioPgV [2, 1, 0] 1 0 10 3 hok hr hs]
  simp [Finset.sum_range_succ, peakAtPredicted, scenarioPgV, p2, p1, p0]

/-- C4: for a template whose spin-down coefficients are all zero and
segments whose velocities are all zero, `foft[j]` is the template's `f0` for
every segment `j < mObsCoh`, whatever the sky position and the time
offsets. -/
theorem frequencyPath_zero_spindown_zero_velocity (cos sin : ℚ → ℚ)
    (t : HoughPulsarTemplate) (velV : List REAL8Cart3Coor) (timeDiffV : List ℚ)
    (mObsCoh : ℕ) (hv : velV.length = mObsCoh) (ht : timeDiffV.length = mObsCoh)
    (hs : ∀ c ∈ t.spindown, c = 0) (hvel : ∀ v ∈ velV, v = ⟨0, 0, 0⟩) :
    frequencyPath cos sin t velV timeDiffV = List.replicate mObsCoh t.f0 := by
  induction velV generalizing timeDiffV mObsCoh with
  | nil =>
    subst hv
    simp [frequencyPath]
  | cons v vs ih =>
    cases timeDiffV with
    | nil =>
      subst ht
      simp at hv
    | cons d ds =>
      have hv0 : v = ⟨0, 0, 0⟩ := hvel v (List.mem_cons_self v vs)
      subst hv
      have ih1 := ih ds vs.length rfl (by simpa using ht)
        (fun w hw => hvel w (List.mem_cons_of_mem v hw))
      simp only [frequencyPath] at ih1
      simp only [frequencyPath, List.zipWith_cons_cons, List.length_cons, List.replicate_succ,
        ih1, hv0, foftEntry_zero cos sin t d hs]

/-- Instance of C4: one zero spin-down, two segments at rest, time offsets `0`
and `1800`, a template at `f0 = 100`. -/
theorem frequencyPath_zero_spindown_zero_velocity_witness :
    frequencyPath (fun _ => 1) (fun _ => 0) ⟨100, 1, 2, [0]⟩
      [⟨0, 0, 0⟩, ⟨0, 0, 0⟩] [0, 1800] = List.replicate 2 100 :=
  frequencyPath_zero_spindown_zero_velocity (fun _ => 1) (fun _ => 0) ⟨100, 1, 2, [0]⟩
    [⟨0, 0, 0⟩, ⟨0, 0, 0⟩] [0, 1800] 2 rfl rfl
    (by intro c hc; simpa using hc)
    (by intro v hv; simpa using hv)

/-- C6: for every segment `j`, entry `j` of `foft` is the loop's `f0new` times
`1 + v · n`, with `v` the velocity of segment `j`, `·` the Euclidean dot
product and `n` the direction `(cos(lat)cos(lon), cos(lat)sin(lon), sin(lat))`
of the template; `foft` has one entry per segment. -/
theorem frequencyPath_doppler (cos sin : ℚ → ℚ) (t : HoughPulsarTemplate)
    (velV : List REAL8Cart3Coor) (timeDiffV : List ℚ) (mObsCoh : ℕ)
    (hv : velV.length = mObsCoh) (hd : timeDiffV.length = mObsCoh) :
    (frequencyPath cos sin t velV timeDiffV).length = mObsCoh ∧
    ∀ (j : ℕ) (v : REAL8Cart3Coor) (dt : ℚ),
      velV[j]? = some v → timeDiffV[j]? = some dt →
      (frequencyPath cos sin t velV timeDiffV)[j]?
        = some (f0newAt t dt
            * (1 + dot v (skyDirection cos sin t.longitude t.latitude))) := by
  constructor
  · simp [frequencyPath, hv, hd]
  · intro j v dt hjv hjd
    simp [frequencyPath, List.getElem?_zipWith, hjv, hjd, foftEntry, dot, skyDirection]

/-- Instance of C6: second of two segments, velocity `(1/10000, 0, 0)`, time
offset `1800`, a template at `f0 = 100` with one spin-down. -/
theorem frequencyPath_doppler_witness :
    (frequencyPath (fun _ => 1) (fun _ => 0) ⟨100, 0, 0, [1 / 1000]⟩
        [⟨0, 0, 0⟩, ⟨1 / 10000, 0, 0⟩] [0, 1800])[1]?
      = some (f0newAt ⟨100, 0, 0, [1 / 1000]⟩ 1800
          * (1 + dot ⟨1 / 10000, 0, 0⟩ (skyDirection (fun _ => 1) (fun _ => 0) 0 0))) :=
  (frequencyPath_doppler (fun _ => 1) (fun _ => 0) ⟨100, 0, 0, [1 / 1000]⟩
    [⟨0, 0, 0⟩, ⟨1 / 10000, 0, 0⟩] [0, 1800] 2 rfl rfl).2 1 ⟨1 / 10000, 0, 0⟩ 1800 rfl rfl

/-- C7 as stated fails: at `f_predicted * timeBase - fMinBin = -1/2` line 465
yields `floor(0) = 0`, and bin 0 is the bin looked up, while rounding with ties
away from zero gives `-1`; and at the argument `1/2 - 2^(-54)` (the double
`0.49999999999999994`) the `REAL8` sum with `0.5` rounds to `1.0` and line 465
yields `1`, while rounding the argument gives `0`. -/
theorem binFloor_ne_roundHalfAway :
    binFloor (-1 / 2) 1 0 = 0 ∧ binIndex (-1 / 2) 1 0 = some 0 ∧
    roundHalfAway ((-1 / 2) * 1 - ((0 : ℤ) : ℚ)) = -1 ∧
    binFloor (-1 / 2) 1 0 ≠ roundHalfAway ((-1 / 2) * 1 - ((0 : ℤ) : ℚ)) ∧
    binFloor (1 / 2 - 1 / 2 ^ 54) 1 0 = 1 ∧
    roundHalfAway ((1 / 2 - 1 / 2 ^ 54) * 1 - ((0 : ℤ) : ℚ)) = 0 := by
  have hex : Line465Exact (-1 / 2) 1 0 := by
    have e1 : (-1 / 2 : ℚ) * 1 = ((-1 : ℤ) : ℚ) * (2 : ℚ) ^ (-1 : ℤ) := by
      rw [zpow_neg_one]
      norm_num
    have e2 : (-1 / 2 : ℚ) * 1 - ((0 : ℤ) : ℚ) = ((-1 : ℤ) : ℚ) * (2 : ℚ) ^ (-1 : ℤ) := by
      rw [zpow_neg_one]
      norm_num
    have e3 : (-1 / 2 : ℚ) * 1 - ((0 : ℤ) : ℚ) + 1 / 2 = 0 := by norm_num
    refine ⟨?_, ?_, ?_⟩
    · rw [e1]
      exact roundREAL8_of_dyadic (-1) (-1) (by norm_num) (by norm_num)
    · rw [e2]
      exact roundREAL8_of_dyadic (-1) (-1) (by norm_num) (by norm_num)
    · rw [e3]
      exact roundREAL8_zero
  have hb : binFloor (-1 / 2) 1 0 = 0 := by
    rw [binFloor_of_exact _ _ _ hex, Int.floor_eq_iff]
    constructor <;> norm_num
  have hr : roundHalfAway ((-1 / 2) * 1 - ((0 : ℤ) : ℚ)) = -1 := by
    unfold roundHalfAway
    rw [if_neg (by norm_num), Int.ceil_eq_iff]
    constructor <;> norm_num
  have hr2 : roundHalfAway ((1 / 2 - 1 / 2 ^ 54) * 1 - ((0 : ℤ) : ℚ)) = 0 := by
    unfold roundHalfAway
    rw [if_pos (by norm_num), Int.floor_eq_iff]
    constructor <;> norm_num
  refine ⟨hb, ?_, hr, ?_, binFloor_below_half, hr2⟩
  · simp [binIndex, hb]
  · rw [hb, hr]
    decide

/-- C7 amended: with `x = f_predicted * timeBase - fMinBin`, whenever the
`REAL8` operations of line 465 are exact, or `x + 1/2` is farther than
`(|f_predicted * timeBase| + |fMinBin| + 1) / 2^51` from every integer, the
value of line 465 is the integer `r` with `x - 1/2 < r ≤ x + 1/2` (round to
nearest, ties towards plus infinity), and it is the tie-away-from-zero rounding
of `x` whenever in addition `x ≥ 0` or `x` is not half-way between two
integers, which is so in the second case; and whenever the value of line 465
lies in `[0, 2^32)` it is the `UINT4` index used for the lookup. -/
theorem binFloor_round_half_up (f timeBase : ℚ) (sftFminBin : ℤ) :
    (Line465Safe f timeBase sftFminBin →
      (f * timeBase - (sftFminBin : ℚ) - 1 / 2 < (binFloor f timeBase sftFminBin : ℚ) ∧
        (binFloor f timeBase sftFminBin : ℚ) ≤ f * timeBase - (sftFminBin : ℚ) + 1 / 2) ∧
      ((0 ≤ f * timeBase - (sftFminBin : ℚ) ∨
          ∀ n : ℤ, f * timeBase - (sftFminBin : ℚ) + 1 / 2 ≠ (n : ℚ)) →
        binFloor f timeBase sftFminBin = roundHalfAway (f * timeBase - (sftFminBin : ℚ)))) ∧
    (AwayFromTies f timeBase sftFminBin →
      binFloor f timeBase sftFminBin = roundHalfAway (f * timeBase - (sftFminBin : ℚ))) ∧
    (0 ≤ binFloor f timeBase sftFminBin → binFloor f timeBase sftFminBin < 2 ^ 32 →
      binIndex f timeBase sftFminBin = some (binFloor f timeBase sftFminBin).toNat) := by
  refine ⟨?_, ?_, binIndex_of_bounds f timeBase sftFminBin⟩
  · intro hs
    have hfl := binFloor_of_safe f timeBase sftFminBin hs
    refine ⟨⟨?_, ?_⟩, ?_⟩
    · rw [hfl]
      have := Int.lt_floor_add_one (f * timeBase - (sftFminBin : ℚ) + 1 / 2)
      linarith
    · rw [hfl]
      exact Int.floor_le _
    · intro h
      rw [hfl]
      exact floor_eq_roundHalfAway _ h
  · intro ha
    rw [binFloor_of_safe f timeBase sftFminBin (Or.inr ha)]
    exact floor_eq_roundHalfAway _ (Or.inr (awayFromTies_ne f timeBase sftFminBin ha))

/-- Instance of C7 amended at `x = 3/2`, where line 465 is exact: the bin is
`2`, as with ties away from zero. -/
theorem binFloor_round_half_up_witness :
    Line465Safe (3 / 2) 1 0 ∧
    (0 ≤ (3 / 2 : ℚ) * 1 - ((0 : ℤ) : ℚ) ∨
        ∀ n : ℤ, (3 / 2 : ℚ) * 1 - ((0 : ℤ) : ℚ) + 1 / 2 ≠ (n : ℚ)) ∧
    binFloor (3 / 2) 1 0 = roundHalfAway ((3 / 2) * 1 - ((0 : ℤ) : ℚ)) := by
  have hex : Line465Exact (3 / 2) 1 0 := by
    have e1 : (3 / 2 : ℚ) * 1 = ((1 : ℤ) : ℚ) + 1 / 2 := by norm_num
    have e2 : (3 / 2 : ℚ) * 1 - ((0 : ℤ) : ℚ) = ((1 : ℤ) : ℚ) + 1 / 2 := by norm_num
    have e3 : (3 / 2 : ℚ) * 1 - ((0 : ℤ) : ℚ) + 1 / 2 = ((2 : ℤ) : ℚ) := by norm_num
    refine ⟨?_, ?_, ?_⟩
    · rw [e1]
      exact roundREAL8_intCast_add_half 1 (by norm_num)
    · rw [e2]
      exact roundREAL8_intCast_add_half 1 (by norm_num)
    · rw [e3]
      exact roundREAL8_intCast 2 (by norm_num)
  exact ⟨Or.inl hex, Or.inl (by norm_num),
    ((binFloor_round_half_up (3 / 2) 1 0).1 (Or.inl hex)).2 (Or.inl (by norm_num))⟩

/-- C8 (violated by the code): every offset the code records is `0`, whatever
the epochs; for two SFTs with epochs `100 s` and `1900 s` the recorded offsets
are `[0, 0]`, not `[0, 1800]`.  Lines 304-305 copy the epoch of the first SFT
into every `timeV.data[j]`. -/
theorem recordedTimeOffsets_ignore_epochs :
    (∀ inputSFTs : List SFTtype,
      recordedTimeOffsets inputSFTs = List.replicate inputSFTs.length 0) ∧
    recordedTimeOffsets [⟨⟨100, 0⟩, 50, 1 / 1800⟩, ⟨⟨1900, 0⟩, 50, 1 / 1800⟩] = [0, 0] ∧
    epochOffsets [⟨⟨100, 0⟩, 50, 1 / 1800⟩, ⟨⟨1900, 0⟩, 50, 1 / 1800⟩] = [0, 1800] := by
  refine ⟨?_, ?_, ?_⟩
  · intro inputSFTs
    cases inputSFTs with
    | nil => rfl
    | cons sft0 rest =>
      simp [recordedTimeOffsets, setTimeV, computeTimeDiffV, List.replicate_succ]
  · simp [recordedTimeOffsets, setTimeV, computeTimeDiffV, List.replicate]
  · simp [epochOffsets, epochREAL8]
    norm_num

/-- C9 (violated by the code): in every run each call of the peak selector
receives a `threshold` that has no value yet; with `peakThreshold = 8/5`,
`normalizeThr = 7/10` and two SFTs the values handed over are not
`peakThreshold / normalizeThr`, which is stored at line 399, after the loop of
lines 270-288 has ended. -/
theorem mainThreshold_unset_in_peak_loop :
    (∀ (uvar_peakThreshold normalizeThr : ℚ) (mObsCoh : ℕ),
      (mainThreshold uvar_peakThreshold normalizeThr mObsCoh).1
        = List.replicate mObsCoh none) ∧
    (mainThreshold (8 / 5) (7 / 10) 2).1 = [none, none] ∧
    (mainThreshold (8 / 5) (7 / 10) 2).2.threshold = some ((8 / 5) / (7 / 10)) ∧
    (mainThreshold (8 / 5) (7 / 10) 2).1 ≠ List.replicate 2 (some ((8 / 5) / (7 / 10))) := by
  refine ⟨fun _ _ _ => rfl, rfl, rfl, ?_⟩
  simp [mainThreshold, peakLoopThresholds, varsBeforePeakLoop, List.replicate]

/-- C10: for a bias factor `b > 0` and thresholds `θ1 < θ2`, every bin of the
peakgram selected with `θ2` is at most the same bin of the peakgram selected
with `θ1` (the two peakgrams have the same length): a peak for `θ2` is a peak
for `θ1`. -/
theorem selectPeak_antitone (w : ℕ) (b theta1 theta2 : ℚ) (periodogram psd : List ℚ)
    (hb : 0 < b) (hth : theta1 < theta2) :
    (selectPeak w b theta1 periodogram psd).length
      = (selectPeak w b theta2 periodogram psd).length ∧
    ∀ k, (selectPeak w b theta2 periodogram psd).getD k 0
      ≤ (selectPeak w b theta1 periodogram psd).getD k 0 := by
  constructor
  · simp [selectPeak]
  · intro k
    have hdiv : theta1 / b < theta2 / b := div_lt_div_of_pos_right hth hb
    by_cases hk : k < periodogram.length
    · have h1 : k < (selectPeak w b theta1 periodogram psd).length := by simpa [selectPeak] using hk
      have h2 : k < (selectPeak w b theta2 periodogram psd).length := by simpa [selectPeak] using hk
      rw [List.getD_eq_getElem _ _ h1, List.getD_eq_getElem _ _ h2]
      simp only [selectPeak, List.getElem_map, List.getElem_range]
      by_cases hc : estimable w periodogram.length k = true
          ∧ periodogram.getD k 0 / psd.getD k 0 > theta2 / b
      · rw [if_pos hc, if_pos ⟨hc.1, lt_trans hdiv hc.2⟩]
      · rw [if_neg hc]
        exact Nat.zero_le _
    · have h2 : (selectPeak w b theta2 periodogram psd).length ≤ k := by
        simp only [selectPeak, List.length_map, List.length_range]
        omega
      rw [List.getD_eq_default _ _ h2]
      exact Nat.zero_le _

/-- Instance of C10: block size 3, `b = 7/10`, thresholds `1 < 2`, a
periodogram of five bins over a flat PSD. -/
theorem selectPeak_antitone_witness :
    (selectPeak 3 (7 / 10) 1 [1, 2, 5, 2, 9] [1, 1, 1, 1, 1]).length
      = (selectPeak 3 (7 / 10) 2 [1, 2, 5, 2, 9] [1, 1, 1, 1, 1]).length ∧
    ∀ k, (selectPeak 3 (7 / 10) 2 [1, 2, 5, 2, 9] [1, 1, 1, 1, 1]).getD k 0
      ≤ (selectPeak 3 (7 / 10) 1 [1, 2, 5, 2, 9] [1, 1, 1, 1, 1]).getD k 0 :=
  selectPeak_antitone 3 (7 / 10) 1 2 [1, 2, 5, 2, 9] [1, 1, 1, 1, 1] (by norm_num) (by norm_num)

/-! ## Template file lemmas -/

theorem scanDoubles_wellFormedLine (weight lon lat f0 sd : ℚ) (rest : List Token) :
    scanDoubles 5 (wellFormedLine weight lon lat f0 sd ++ rest)
      = ([weight, lon, lat, f0, sd], rest) := by
  simp [wellFormedLine, scanDoubles]

theorem fscanf5_wellFormedLine (weight lon lat f0 sd : ℚ) (rest : List Token) :
    fscanf5 (wellFormedLine weight lon lat f0 sd ++ rest)
      = (5, [weight, lon, lat, f0, sd], rest) := by
  have h := scanDoubles_wellFormedLine weight lon lat f0 sd rest
  have hc : wellFormedLine weight lon lat f0 sd ++ rest
      = Token.num weight :: ([Token.num lon, Token.num lat, Token.num f0, Token.num sd] ++ rest) :=
    rfl
  rw [hc] at h ⊢
  simp only [fscanf5, h]
  rfl

theorem fscanf5_word (stream : List Token) :
    fscanf5 (Token.word :: stream) = (0, [], Token.word :: stream) := by
  simp [fscanf5, scanDoubles]

/-- A field that is not a number is never consumed: the counting loop does not
end. -/
theorem countLoop_word (stream : List Token) :
    ∀ (fuel nTemplates : ℕ), countLoop fuel (Token.word :: stream) nTemplates = none := by
  intro fuel
  induction fuel with
  | zero => intro n; rfl
  | succ fuel ih =>
    intro n
    rw [countLoop, fscanf5_word]
    simp only [EOF]
    rw [if_pos (by decide)]
    simpa using ih n

theorem fileTokens_cons (line : List Token) (file : TemplateFile) :
    fileTokens (line :: file) = line ++ fileTokens file := by
  simp [fileTokens]

theorem countLoop_wellFormed (rows : List (ℚ × TemplateEntry)) :
    ∀ (fuel nTemplates : ℕ), rows.length < fuel →
      countLoop fuel
        (fileTokens (rows.map fun row =>
          wellFormedLine row.1 row.2.alpha row.2.delta row.2.freq row.2.spndn)) nTemplates
        = some (nTemplates + rows.length) := by
  induction rows with
  | nil =>
    intro fuel n hf
    cases fuel with
    | zero => simp at hf
    | succ fuel => simp [fileTokens, countLoop, fscanf5, EOF]
  | cons row rows ih =>
    intro fuel n hf
    cases fuel with
    | zero => simp at hf
    | succ fuel =>
      rw [List.map_cons, fileTokens_cons, countLoop, fscanf5_wellFormedLine]
      simp only [EOF]
      rw [if_pos (by decide)]
      simp only [if_true]
      rw [ih fuel (n + 1) (by simpa using hf)]
      simp only [List.length_cons]
      congr 1
      omega

theorem readLoop_wellFormed (rows : List (ℚ × TemplateEntry)) :
    readLoop rows.length
      (fileTokens (rows.map fun row =>
        wellFormedLine row.1 row.2.alpha row.2.delta row.2.freq row.2.spndn))
      = some (rows.map Prod.snd) := by
  induction rows with
  | nil => rfl
  | cons row rows ih =>
    rw [List.map_cons, fileTokens_cons, List.length_cons, readLoop, fscanf5_wellFormedLine]
    simp only [ih, List.map_cons]

/-! ## Lemmas on the loop over templates -/

theorem templateRecord_fields (cos sin : ℚ → ℚ) (seg : SegmentData) (e : TemplateEntry)
    (r : NumberCountRecord) (h : templateRecord cos sin seg e = some r) :
    r.longitude = e.alpha ∧ r.latitude = e.delta ∧ r.f0 = e.freq ∧ r.spindown0 = e.spndn ∧
    templateCount cos sin ⟨e.freq, e.alpha, e.delta, [e.spndn]⟩ seg.velV seg.timeDiffV seg.pgV
      seg.timeBase seg.sftFminBin seg.mObsCoh = some r.numberCount := by
  unfold templateRecord at h
  simp only at h
  cases hc : templateCount cos sin ⟨e.freq, e.alpha, e.delta, [e.spndn]⟩ seg.velV seg.timeDiffV
      seg.pgV seg.timeBase seg.sftFminBin seg.mObsCoh with
  | none =>
    rw [hc] at h
    exact Option.noConfusion h
  | some c =>
    rw [hc] at h
    have hr := Option.some.inj h
    subst hr
    exact ⟨rfl, rfl, rfl, rfl, rfl⟩

/-- The loop over templates writes one record per template, the record of
each template in turn, as soon as every record is defined. -/
theorem templateLoop_eq_some_iff (cos sin : ℚ → ℚ) (seg : SegmentData) :
    ∀ (es : List TemplateEntry) (rs : List NumberCountRecord),
      templateLoop cos sin seg es = some rs ↔
        es.map (templateRecord cos sin seg) = rs.map some := by
  intro es
  induction es with
  | nil =>
    intro rs
    cases rs with
    | nil => simp [templateLoop]
    | cons r rs => simp [templateLoop]
  | cons e es ih =>
    intro rs
    rw [templateLoop]
    cases hr : templateRecord cos sin seg e with
    | none =>
      cases rs with
      | nil => simp
      | cons r rs => simp [hr]
    | some r =>
      cases hl : templateLoop cos sin seg es with
      | none =>
        cases rs with
        | nil => simp
        | cons r1 rs1 =>
          simp only [List.map_cons, hr, List.cons.injEq, Option.some.injEq]
          constructor
          · intro hcontra
            exact Option.noConfusion hcontra
          · intro hcontra
            have := (ih rs1).mpr hcontra.2
            rw [hl] at this
            exact Option.noConfusion this
      | some rs0 =>
        have h0 := (ih rs0).mp hl
        cases rs with
        | nil => simp
        | cons r1 rs1 =>
          simp only [Option.some.injEq, List.cons.injEq, List.map_cons, hr]
          constructor
          · rintro ⟨h1, h2⟩
            subst h1 h2
            exact ⟨rfl, h0⟩
          · rintro ⟨h1, h2⟩
            refine ⟨h1, ?_⟩
            have := (ih rs1).mpr h2
            rw [hl] at this
            exact Option.some.inj this

theorem templateLoop_of_defined (cos sin : ℚ → ℚ) (seg : SegmentData) :
    ∀ (es : List TemplateEntry),
      (∀ e ∈ es, (templateRecord cos sin seg e).isSome = true) →
      ∃ rs, templateLoop cos sin seg es = some rs := by
  intro es
  induction es with
  | nil => intro _; exact ⟨[], rfl⟩
  | cons e es ih =>
    intro h
    obtain ⟨rs, hrs⟩ := ih fun e1 he1 => h e1 (List.mem_cons_of_mem e he1)
    obtain ⟨r, hr⟩ := Option.isSome_iff_exists.mp (h e (List.mem_cons_self e es))
    exact ⟨r :: rs, by rw [templateLoop, hr, hrs]⟩

/-- No pass of the loop over SFTs is defined: the entry of `pgV` read at line
274 belongs to the array allocated at line 273 and has not been assigned. -/
theorem peakLoopPass_undefined (callees : SegmentCallees) (inputSFTs : List SFTtype)
    (mObsCoh tempLoopId : ℕ) :
    peakLoopPass callees inputSFTs mObsCoh tempLoopId = none := by
  unfold peakLoopPass mallocPgV
  by_cases h : tempLoopId < mObsCoh
  · rw [List.getElem?_eq_getElem (by simpa using h)]
    simp
  · rw [List.getElem?_eq_none (by simpa using h)]

theorem loadSegments_undefined (callees : SegmentCallees) (inputSFTs : List SFTtype) :
    loadSegments callees inputSFTs = none := by
  unfold loadSegments
  cases inputSFTs with
  | nil => rfl
  | cons sft0 rest =>
    simp only
    cases timeBaseOf sft0.deltaF with
    | none => rfl
    | some timeBase =>
      simp only
      cases sftFminBinOf timeBase sft0.f0 with
      | none => rfl
      | some sftFminBin =>
        simp only [List.length_cons, peakLoop, peakLoopPass_undefined]

theorem driver_undefined (VTOT : ℚ) (callees : SegmentCallees) (cos sin : ℚ → ℚ)
    (templates : List TemplateEntry) : driver VTOT callees cos sin templates = none := by
  unfold driver
  cases readSFTs VTOT callees templates with
  | none => rfl
  | some inputSFTs => simp only [loadSegments_undefined]

/-- The reading loop and the loop over templates by themselves: on given
segment data on which the count of every template of a file of well-formed
lines is defined, the counting loop counts the lines, the reading loop stores
fields 2 to 5 of each line, and the loop over templates writes one record per
line, in file order, with the longitude, latitude, `f0` and `spindown0` of the
line. -/
theorem templateLoop_records_of_wellFormed (cos sin : ℚ → ℚ) (seg : SegmentData)
    (rows : List (ℚ × TemplateEntry))
    (hdef : ∀ row ∈ rows, (templateRecord cos sin seg row.2).isSome = true) :
    countLoop (rows.length + 1)
        (fileTokens (rows.map fun row =>
          wellFormedLine row.1 row.2.alpha row.2.delta row.2.freq row.2.spndn)) 0
      = some rows.length ∧
    readLoop rows.length
        (fileTokens (rows.map fun row =>
          wellFormedLine row.1 row.2.alpha row.2.delta row.2.freq row.2.spndn))
      = some (rows.map Prod.snd) ∧
    ∃ records, templateLoop cos sin seg (rows.map Prod.snd) = some records ∧
      records.length = rows.length ∧
      ∀ (i : ℕ) (row : ℚ × TemplateEntry), rows[i]? = some row →
        ∃ r, records[i]? = some r ∧ r.longitude = row.2.alpha ∧ r.latitude = row.2.delta ∧
          r.f0 = row.2.freq ∧ r.spindown0 = row.2.spndn := by
  refine ⟨by simpa using countLoop_wellFormed rows (rows.length + 1) 0 (by omega),
    readLoop_wellFormed rows, ?_⟩
  obtain ⟨records, hrec⟩ := templateLoop_of_defined cos sin seg (rows.map Prod.snd) (by
    intro e he
    obtain ⟨row, hrow, rfl⟩ := List.mem_map.mp he
    exact hdef row hrow)
  have hm := (templateLoop_eq_some_iff cos sin _ _ records).mp hrec
  have hlen : records.length = rows.length := by
    have := congrArg List.length hm
    simpa using this.symm
  refine ⟨records, hrec, hlen, ?_⟩
  intro i row hi
  have hget := congrArg (fun l => l[i]?) hm
  simp only [List.getElem?_map, hi, Option.map_some'] at hget
  cases hr : records[i]? with
  | none =>
    rw [hr] at hget
    exact Option.noConfusion hget
  | some r =>
    rw [hr] at hget
    simp only [Option.map_some', Option.some.injEq] at hget
    obtain ⟨h1, h2, h3, h4, _⟩ := templateRecord_fields cos sin _ row.2 r hget
    exact ⟨r, rfl, h1, h2, h3, h4⟩

/-- C12 (violated by the code): for a template file of `n` well-formed lines
the run does not end with `n` records: whatever the SFTs read and whatever the
functions called answer, the run is undefined before the first template is
scored.  Each pass of the loop over SFTs allocates `pgV` anew (line 273), reads
`pg1 = pgV[tempLoopId]` from the new array (line 274) and writes through that
unassigned pointer (lines 275-277); with no SFT at all lines 263-265 read the
first SFT of an empty vector.  So it is for the file of the single line
`7 0 0 10 0` with one SFT read. -/
theorem mainRun_undefined_on_wellFormed :
    (∀ (callees : SegmentCallees) (inputSFTs : List SFTtype) (mObsCoh tempLoopId : ℕ),
      peakLoopPass callees inputSFTs mObsCoh tempLoopId = none) ∧
    (∀ (VTOT : ℚ) (callees : SegmentCallees) (cos sin : ℚ → ℚ)
        (rows : List (ℚ × TemplateEntry)),
      mainRun (rows.length + 1) VTOT callees cos sin
          (some (rows.map fun row =>
            wellFormedLine row.1 row.2.alpha row.2.delta row.2.freq row.2.spndn))
        = RunResult.undefinedBehaviour) ∧
    mainRun 2 (1 / 10000)
        ⟨fun _ _ => [⟨⟨0, 0⟩, 0, 1⟩], fun _ => List.replicate 20 1, fun _ _ => ⟨0, 0, 0⟩⟩
        (fun _ => 1) (fun _ => 0) (some [wellFormedLine 7 0 0 10 0])
      = RunResult.undefinedBehaviour := by
  have hrun : ∀ (VTOT : ℚ) (callees : SegmentCallees) (cos sin : ℚ → ℚ)
      (rows : List (ℚ × TemplateEntry)),
      mainRun (rows.length + 1) VTOT callees cos sin
          (some (rows.map fun row =>
            wellFormedLine row.1 row.2.alpha row.2.delta row.2.freq row.2.spndn))
        = RunResult.undefinedBehaviour := by
    intro VTOT callees cos sin rows
    simp only [mainRun, countLoop_wellFormed rows (rows.length + 1) 0 (by omega), Nat.zero_add,
      readLoop_wellFormed rows, driver_undefined]
  refine ⟨peakLoopPass_undefined, hrun, ?_⟩
  exact hrun (1 / 10000) _ (fun _ => 1) (fun _ => 0) [(7, ⟨0, 0, 10, 0⟩)]

/-- C13 (violated by the code): on the file of the two lines `1 2 3 4 5` and
`abc` the counting loop of lines 216-222 never ends, whatever the number of
passes allowed, where the claim stops at the second line with the count `1`;
and on the lines `1 2 3 4 5`, `1 2`, `1 2 3 4 5` it ends with the count `2`,
the count of well-formed lines before the malformed one being `1`. -/
theorem countLoop_not_ended_on_word :
    (∀ fuel : ℕ,
      countLoop fuel (fileTokens [wellFormedLine 1 2 3 4 5, [Token.word]]) 0 = none) ∧
    wellFormedPrefixCount [wellFormedLine 1 2 3 4 5, [Token.word]] = 1 ∧
    countLoop 4 (fileTokens [wellFormedLine 1 2 3 4 5, [Token.num 1, Token.num 2],
      wellFormedLine 1 2 3 4 5]) 0 = some 2 ∧
    wellFormedPrefixCount [wellFormedLine 1 2 3 4 5, [Token.num 1, Token.num 2],
      wellFormedLine 1 2 3 4 5] = 1 := by
  refine ⟨?_, rfl, ?_, rfl⟩
  · intro fuel
    cases fuel with
    | zero => rfl
    | succ fuel =>
      have h : fileTokens [wellFormedLine 1 2 3 4 5, [Token.word]]
          = wellFormedLine 1 2 3 4 5 ++ [Token.word] := by
        simp [fileTokens]
      rw [h, countLoop, fscanf5_wellFormedLine]
      simp only [EOF]
      rw [if_pos (by decide)]
      exact countLoop_word [] fuel _
  · simp [fileTokens, wellFormedLine, countLoop, fscanf5, scanDoubles, EOF]

/-- C14: for a non-empty template list the band passed to the segment loader
is `[fmin - W, fmax + W]` with `fmin` the `f0` of the first template, `fmax`
the `f0` of the last template and the same wing `W = fmax * VTOT` on each
side; the SFTs the run goes on with are those `LALReadSFTfiles` returns for
this band. -/
theorem requestedBand_first_last (VTOT : ℚ) (callees : SegmentCallees) (cos sin : ℚ → ℚ)
    (templates : List TemplateEntry) (h : templates ≠ []) :
    requestedBand VTOT (templates.map TemplateEntry.freq)
      = some ((templates.head h).freq - (templates.getLast h).freq * VTOT,
          (templates.getLast h).freq + (templates.getLast h).freq * VTOT) ∧
    readSFTs VTOT callees templates
      = some (callees.LALReadSFTfiles
          ((templates.head h).freq - (templates.getLast h).freq * VTOT)
          ((templates.getLast h).freq + (templates.getLast h).freq * VTOT)) ∧
    driver VTOT callees cos sin templates
      = (match loadSegments callees (callees.LALReadSFTfiles
            ((templates.head h).freq - (templates.getLast h).freq * VTOT)
            ((templates.getLast h).freq + (templates.getLast h).freq * VTOT)) with
          | none => none
          | some seg => templateLoop cos sin seg templates) := by
  have hne : templates.map TemplateEntry.freq ≠ [] := by simpa using h
  have h0 : (templates.map TemplateEntry.freq)[0]? = some (templates.head h).freq := by
    cases templates with
    | nil => exact absurd rfl h
    | cons e es => simp
  have hl : (templates.map TemplateEntry.freq)[(templates.map TemplateEntry.freq).length - 1]?
      = some (templates.getLast h).freq := by
    rw [← List.getLast?_eq_getElem?, List.getLast?_eq_getLast _ hne, List.getLast_map]
  have hband : requestedBand VTOT (templates.map TemplateEntry.freq)
      = some ((templates.head h).freq - (templates.getLast h).freq * VTOT,
          (templates.getLast h).freq + (templates.getLast h).freq * VTOT) := by
    simp only [requestedBand, h0, hl]
  have hread : readSFTs VTOT callees templates
      = some (callees.LALReadSFTfiles
          ((templates.head h).freq - (templates.getLast h).freq * VTOT)
          ((templates.getLast h).freq + (templates.getLast h).freq * VTOT)) := by
    simp only [readSFTs, hband]
  exact ⟨hband, hread, by simp only [driver, hread]⟩

/-- Instance of C14: templates of `f0 = 100` and `200`, `VTOT = 1/10000`. -/
theorem requestedBand_first_last_witness :
    requestedBand (1 / 10000)
        (List.map TemplateEntry.freq [⟨0, 0, 100, 0⟩, ⟨0, 0, 200, 0⟩])
      = some ((List.head [(⟨0, 0, 100, 0⟩ : TemplateEntry), ⟨0, 0, 200, 0⟩]
              (List.cons_ne_nil _ _)).freq
            - (List.getLast [(⟨0, 0, 100, 0⟩ : TemplateEntry), ⟨0, 0, 200, 0⟩]
              (List.cons_ne_nil _ _)).freq * (1 / 10000),
          (List.getLast [(⟨0, 0, 100, 0⟩ : TemplateEntry), ⟨0, 0, 200, 0⟩]
              (List.cons_ne_nil _ _)).freq
            + (List.getLast [(⟨0, 0, 100, 0⟩ : TemplateEntry), ⟨0, 0, 200, 0⟩]
              (List.cons_ne_nil _ _)).freq * (1 / 10000)) :=
  (requestedBand_first_last (1 / 10000)
    ⟨fun _ _ => [⟨⟨0, 0⟩, 0, 1⟩], fun _ => List.replicate 20 1, fun _ _ => ⟨0, 0, 0⟩⟩
    (fun _ => 1) (fun _ => 0)
    [⟨0, 0, 100, 0⟩, ⟨0, 0, 200, 0⟩] (List.cons_ne_nil _ _)).1

/-- C15 (violated by the code): a template file without any well-formed line
(an empty file, or the single line `1 2 3`) does not make the run abort with
an error status; `nTemplates` is `0` and lines 243-245 read `freqVec[0]` and
`freqVec[nTemplates-1]` of arrays of no element, so that no band is defined.
The only abort of the block is the one for a file that cannot be opened. -/
theorem mainRun_empty_template_list (VTOT : ℚ) (callees : SegmentCallees)
    (cos sin : ℚ → ℚ) (fuel : ℕ) :
    mainRun (fuel + 1) VTOT callees cos sin (some []) = RunResult.undefinedBehaviour ∧
    mainRun (fuel + 2) VTOT callees cos sin (some [[Token.num 1, Token.num 2, Token.num 3]])
      = RunResult.undefinedBehaviour ∧
    mainRun fuel VTOT callees cos sin none = RunResult.exit ExitStatus.EFILE [] ∧
    countLoop (fuel + 1) (fileTokens []) 0 = some 0 ∧
    countLoop (fuel + 2) (fileTokens [[Token.num 1, Token.num 2, Token.num 3]]) 0 = some 0 ∧
    readLoop 0 (fileTokens []) = some [] ∧
    requestedBand VTOT (List.map TemplateEntry.freq []) = none ∧
    readSFTs VTOT callees [] = none := by
  refine ⟨?_, ?_, rfl, ?_, ?_, rfl, rfl, rfl⟩
  · simp [mainRun, fileTokens, countLoop, fscanf5, EOF, readLoop, driver, readSFTs,
      requestedBand]
  · simp [mainRun, fileTokens, countLoop, fscanf5, scanDoubles, EOF, readLoop, driver,
      readSFTs, requestedBand]
  · simp [fileTokens, countLoop, fscanf5, EOF]
  · simp [fileTokens, countLoop, fscanf5, scanDoubles, EOF]

/-- C16 as stated fails: for the record `2, 0, 0, 1, 0`, with `%f` rendering
`0.000000` or `1.000000` and `%g` rendering `0`, the line written is
`2 0.000000 0.000000 1.000000 0 ` followed by the newline: a space stands
between the last field and the newline. -/
theorem printRecord_trailing_space :
    printRecord (fun _ => "2") (fun x => if x = 0 then "0.000000" else "1.000000")
        (fun _ => "0") ⟨2, 0, 0, 1, 0⟩
      = "2 0.000000 0.000000 1.000000 0 \n" ∧
    specLine (fun _ => "2") (fun x => if x = 0 then "0.000000" else "1.000000")
        (fun _ => "0") ⟨2, 0, 0, 1, 0⟩
      = "2 0.000000 0.000000 1.000000 0\n" ∧
    printRecord (fun _ => "2") (fun x => if x = 0 then "0.000000" else "1.000000")
        (fun _ => "0") ⟨2, 0, 0, 1, 0⟩
      ≠ specLine (fun _ => "2") (fun x => if x = 0 then "0.000000" else "1.000000")
        (fun _ => "0") ⟨2, 0, 0, 1, 0⟩ := by
  have h1 : printRecord (fun _ => "2") (fun x => if x = 0 then "0.000000" else "1.000000")
      (fun _ => "0") ⟨2, 0, 0, 1, 0⟩ = "2 0.000000 0.000000 1.000000 0 \n" := by
    simp only [printRecord, if_true, one_ne_zero, if_false]
    decide
  have h2 : specLine (fun _ => "2") (fun x => if x = 0 then "0.000000" else "1.000000")
      (fun _ => "0") ⟨2, 0, 0, 1, 0⟩ = "2 0.000000 0.000000 1.000000 0\n" := by
    simp only [specLine, if_true, one_ne_zero, if_false]
    decide
  refine ⟨h1, h2, ?_⟩
  rw [h1, h2]
  decide

/-- C16 amended: every output line consists of the five fields count,
longitude, latitude, `f0`, `spindown0` in that order (count by `%d`,
longitude, latitude and `f0` by `%f`, `spindown0` by `%g`), separated by
single spaces, the last field followed by one space and the newline. -/
theorem printRecord_eq_fields (fmtD : ℕ → String) (fmtF fmtG : ℚ → String)
    (r : NumberCountRecord) :
    printRecord fmtD fmtF fmtG r
      = String.intercalate " "
          [fmtD r.numberCount, fmtF r.longitude, fmtF r.latitude, fmtF r.f0, fmtG r.spindown0]
        ++ " \n" := by
  simp [printRecord, String.intercalate, String.intercalate.go, String.append_assoc]

/-! ## Closed form of the spin-down loop -/

/-- C27: for every spin-down sequence of length `k ≤ 2` the loop computes the
Taylor value `f0 + Σ spindown[i-1]·Δt^i/i!`; for the single spin-down of the
program (`msp = 1`) it is `f0 + spindown0 · Δt`; and with three coefficients
the two differ (`[0, 0, 1]` at `Δt = 2`: `8/3` against `4/3`). -/
theorem f0newAt_eq_taylor_of_le_two :
    (∀ (t : HoughPulsarTemplate) (dt : ℚ), t.spindown.length ≤ 2 →
      f0newAt t dt = taylorIntrinsic t.f0 t.spindown dt) ∧
    (∀ (f0 lon lat spindown0 dt : ℚ),
      f0newAt ⟨f0, lon, lat, [spindown0]⟩ dt = f0 + spindown0 * dt) ∧
    f0newAt ⟨0, 0, 0, [0, 0, 1]⟩ 2 = 8 / 3 ∧ taylorIntrinsic 0 [0, 0, 1] 2 = 4 / 3 := by
  have e0 : Finset.Icc 1 0 = (∅ : Finset ℕ) := by decide
  have e1 : Finset.Icc 1 1 = ({1} : Finset ℕ) := by decide
  have e2 : Finset.Icc 1 2 = ({1, 2} : Finset ℕ) := by decide
  have e3 : Finset.Icc 1 3 = ({1, 2, 3} : Finset ℕ) := by decide
  refine ⟨?_, ?_, ?_, ?_⟩
  · intro t dt hlen
    obtain ⟨f0, lon, lat, sd⟩ := t
    simp only at hlen
    match sd, hlen with
    | [], _ => simp [f0newAt, spinLoop, taylorIntrinsic, e0]
    | [a], _ =>
      simp [f0newAt, spinLoop, spinStep, wrapINT4, taylorIntrinsic, e1]
    | [a, b], _ =>
      simp [f0newAt, spinLoop, spinStep, wrapINT4, taylorIntrinsic, e2, Nat.factorial]
      ring
    | _ :: _ :: _ :: _, h => simp at h
  · intro f0 lon lat spindown0 dt
    simp [f0newAt, spinLoop, spinStep, wrapINT4]
  · norm_num [f0newAt, spinLoop, spinStep, wrapINT4]
  · simp [taylorIntrinsic, e3, Nat.factorial]
    norm_num

/-- Instance of C27: spin-downs `[3, 4]`, `f0 = 10`, `Δt = 2`. -/
theorem f0newAt_eq_taylor_of_le_two_witness :
    f0newAt ⟨10, 0, 0, [3, 4]⟩ 2 = taylorIntrinsic 10 [3, 4] 2 :=
  f0newAt_eq_taylor_of_le_two.1 ⟨10, 0, 0, [3, 4]⟩ 2 (by decide)

/-! ## Doppler bound and band -/

theorem numberCount_of_storeOK (pgV : List UCHARPeakGram) (foft : List ℚ) (timeBase : ℚ)
    (sftFminBin : ℤ) (sftlength mObsCoh : ℕ)
    (hok : SegmentStoreOK pgV sftlength mObsCoh)
    (hr : ∀ j, j < mObsCoh → InRange pgV foft timeBase sftFminBin j) :
    numberCount pgV foft timeBase sftFminBin mObsCoh
      = some (∑ j in Finset.range mObsCoh, peakAt pgV foft timeBase sftFminBin j) := by
  obtain ⟨_, hM, hL, hpg⟩ := hok
  have hlen : ∀ pg ∈ pgV, pg.data.length < 2 ^ 32 := fun pg h => by
    rw [(hpg pg h).1]; exact hL
  have hb : ∀ pg ∈ pgV, ∀ b ∈ pg.data, b ≤ 1 := fun pg h => (hpg pg h).2
  have hsum : ∑ j in Finset.range mObsCoh, peakAt pgV foft timeBase sftFminBin j
      ≤ mObsCoh := by
    calc ∑ j in Finset.range mObsCoh, peakAt pgV foft timeBase sftFminBin j
        ≤ ∑ _j in Finset.range mObsCoh, 1 :=
          Finset.sum_le_sum fun j _ => peakAt_le_one pgV foft timeBase sftFminBin j hb
      _ = mObsCoh := by simp
  have h := numberCountLoop_inRange pgV foft timeBase sftFminBin hlen mObsCoh 0 0
    (fun i _ hi => hr i (by omega)) (by simp only [Nat.zero_add]; omega)
  simpa [numberCount] using h

/-- C29: for a fixed frequency path (template, `fMinBin`, `timeBase`, time
offsets and velocities fixed) with every predicted bin in range, if each
peakgram `A_j` is bit-wise at most `B_j`, both counts are defined and the
count over the `A` peakgrams is at most the count over the `B` peakgrams. -/
theorem numberCount_mono (pgA pgB : List UCHARPeakGram) (foft : List ℚ) (timeBase : ℚ)
    (sftFminBin : ℤ) (sftlength mObsCoh : ℕ)
    (hA : SegmentStoreOK pgA sftlength mObsCoh) (hB : SegmentStoreOK pgB sftlength mObsCoh)
    (hr : ∀ j, j < mObsCoh → InRange pgA foft timeBase sftFminBin j)
    (hle : ∀ (j k : ℕ) (pa pb : UCHARPeakGram), pgA[j]? = some pa → pgB[j]? = some pb →
      pa.data.getD k 0 ≤ pb.data.getD k 0) :
    ∃ cA cB, numberCount pgA foft timeBase sftFminBin mObsCoh = some cA ∧
      numberCount pgB foft timeBase sftFminBin mObsCoh = some cB ∧ cA ≤ cB := by
  have hrB : ∀ j, j < mObsCoh → InRange pgB foft timeBase sftFminBin j := by
    intro j hj
    obtain ⟨pa, f, hpa, hf, h0, h1⟩ := hr j hj
    have hjB : j < pgB.length := by rw [hB.1]; exact hj
    refine ⟨pgB[j], f, List.getElem?_eq_getElem hjB, hf, h0, ?_⟩
    have hlenA := (hA.2.2.2 pa (List.getElem?_mem hpa)).1
    have hlenB := (hB.2.2.2 pgB[j] (List.getElem_mem _)).1
    rw [hlenB]
    rw [hlenA] at h1
    exact h1
  refine ⟨_, _, numberCount_of_storeOK pgA foft timeBase sftFminBin sftlength mObsCoh hA hr,
    numberCount_of_storeOK pgB foft timeBase sftFminBin sftlength mObsCoh hB hrB, ?_⟩
  apply Finset.sum_le_sum
  intro j hj
  have hj' : j < mObsCoh := Finset.mem_range.mp hj
  obtain ⟨pa, f, hpa, hf, h0, _⟩ := hr j hj'
  obtain ⟨pb, g, hpb, hg, _, _⟩ := hrB j hj'
  simp only [peakAt, hpa, hpb, hf, h0, if_true]
  exact hle j _ pa pb hpa hpb

/-- Instance of C29: the scenario peakgrams against the same peakgrams with
bin 1 of the first segment raised to a peak; frequency path `[1, 1, 1]`. -/
theorem numberCount_mono_witness :
    ∃ cA cB, numberCount scenarioPgV [1, 1, 1] 1 0 3 = some cA ∧
      numberCount
        [⟨[1, 1, 1, 0, 0, 0, 0, 0, 0, 0]⟩, ⟨[0, 1, 0, 0, 0, 0, 0, 0, 0, 0]⟩,
          ⟨[1, 1, 0, 0, 0, 0, 0, 0, 0, 0]⟩] [1, 1, 1] 1 0 3 = some cB ∧ cA ≤ cB := by
  have h1 : binFloor (1 : ℚ) 1 0 = 1 := by exact_mod_cast binFloor_intCast 1 (by norm_num)
  have hok : ∀ pgV : List UCHARPeakGram, pgV.length = 3 →
      (∀ pg ∈ pgV, pg.data.length = 10 ∧ ∀ b ∈ pg.data, b ≤ 1) → SegmentStoreOK pgV 10 3 :=
    fun pgV hl hp => ⟨hl, by norm_num, by norm_num, hp⟩
  have hA : SegmentStoreOK scenarioPgV 10 3 := by
    refine hok scenarioPgV rfl ?_
    intro pg hpg
    simp only [scenarioPgV, List.mem_cons, List.mem_singleton, List.not_mem_nil, or_false] at hpg
    rcases hpg with h | h | h <;> subst h <;> refine ⟨rfl, ?_⟩ <;> intro b hb <;>
      simp at hb <;> omega
  have hB : SegmentStoreOK
      [⟨[1, 1, 1, 0, 0, 0, 0, 0, 0, 0]⟩, ⟨[0, 1, 0, 0, 0, 0, 0, 0, 0, 0]⟩,
        ⟨[1, 1, 0, 0, 0, 0, 0, 0, 0, 0]⟩] 10 3 := by
    refine hok _ rfl ?_
    intro pg hpg
    simp only [List.mem_cons, List.mem_singleton, List.not_mem_nil, or_false] at hpg
    rcases hpg with h | h | h <;> subst h <;> refine ⟨rfl, ?_⟩ <;> intro b hb <;>
      simp at hb <;> omega
  have hr : ∀ j, j < 3 → InRange scenarioPgV [1, 1, 1] 1 0 j := by
    intro j hj
    interval_cases j
    · exact ⟨⟨[1, 0, 1, 0, 0, 0, 0, 0, 0, 0]⟩, 1, rfl, rfl, by rw [h1]; norm_num,
        by rw [h1]; norm_num⟩
    · exact ⟨⟨[0, 1, 0, 0, 0, 0, 0, 0, 0, 0]⟩, 1, rfl, rfl, by rw [h1]; norm_num,
        by rw [h1]; norm_num⟩
    · exact ⟨⟨[1, 1, 0, 0, 0, 0, 0, 0, 0, 0]⟩, 1, rfl, rfl, by rw [h1]; norm_num,
        by rw [h1]; norm_num⟩
  refine numberCount_mono scenarioPgV _ [1, 1, 1] 1 0 10 3 hA hB hr ?_
  intro j k pa pb hpa hpb
  have hj : j < 3 := by
    by_contra hge
    have : scenarioPgV[j]? = none := List.getElem?_eq_none (by simp [scenarioPgV]; omega)
    rw [this] at hpa
    exact Option.noConfusion hpa
  interval_cases j
  · simp only [scenarioPgV, List.getElem?_cons_zero, Option.some.injEq] at hpa hpb
    subst hpa hpb
    have hk : k < 10 ∨ 10 ≤ k := by omega
    rcases hk with hk | hk
    · interval_cases k <;> simp
    · rw [List.getD_eq_default _ _ (by simpa using hk), List.getD_eq_default _ _ (by simpa using hk)]
  · simp only [scenarioPgV, List.getElem?_cons_succ, List.getElem?_cons_zero,
      Option.some.injEq] at hpa hpb
    subst hpa hpb
    exact le_refl _
  · simp only [scenarioPgV, List.getElem?_cons_succ, List.getElem?_cons_zero,
      Option.some.injEq] at hpa hpb
    subst hpa hpb
    exact le_refl _

end HoughValidate

namespace VectorOps

open LALStatus

/-! ## Lemmas on the multiplication loop -/

/-- The loop fills elements `k` to `k + fuel - 1` of the output block with the
products of the elements the input blocks held on entry, also when an input
block is the output block, and touches nothing else. -/
theorem multiplyConjugateLoop_spec (mem0 : Memory) (pa pb pc N : ℕ)
    (ha : (mem0 pa).length = N) (hb : (mem0 pb).length = N) :
    ∀ (fuel k : ℕ) (m : Memory), k + fuel ≤ N →
      (∀ p, p ≠ pc → m p = mem0 p) → (m pc).length = N →
      (∀ i, k ≤ i → (m pc)[i]? = (mem0 pc)[i]?) →
      ∃ m', multiplyConjugateLoop pa pb pc fuel k m = some m' ∧
        (∀ p, p ≠ pc → m' p = mem0 p) ∧ (m' pc).length = N ∧
        (∀ i, k + fuel ≤ i → (m' pc)[i]? = (mem0 pc)[i]?) ∧
        (∀ i, i < k → (m' pc)[i]? = (m pc)[i]?) ∧
        (∀ i, k ≤ i → i < k + fuel → ∃ a b, (mem0 pa)[i]? = some a ∧ (mem0 pb)[i]? = some b ∧
          (m' pc)[i]? = some ⟨a.re * b.re + a.im * b.im, a.im * b.re - a.re * b.im⟩) := by
  intro fuel
  induction fuel with
  | zero =>
    intro k m _ hother hlen hrest
    refine ⟨m, rfl, hother, hlen, fun i hi => hrest i (by omega), fun _ _ => rfl, ?_⟩
    intro i h1 h2
    omega
  | succ fuel ih =>
    intro k m hk hother hlen hrest
    have hkN : k < N := by omega
    have hread : ∀ p, (mem0 p).length = N → (m p)[k]? = (mem0 p)[k]? := by
      intro p _
      by_cases hp : p = pc
      · subst hp
        exact hrest k (le_refl k)
      · rw [hother p hp]
    have hka : k < (mem0 pa).length := by omega
    have hkb : k < (mem0 pb).length := by omega
    have hra : (m pa)[k]? = some ((mem0 pa)[k]) := by
      rw [hread pa ha, List.getElem?_eq_getElem hka]
    have hrb : (m pb)[k]? = some ((mem0 pb)[k]) := by
      rw [hread pb hb, List.getElem?_eq_getElem hkb]
    have hkc : k < (m pc).length := by omega
    obtain ⟨m', hrun, h1, h2, h3, h4, h5⟩ := ih (k + 1)
      (Function.update m pc ((m pc).set k
        ⟨(mem0 pa)[k].re * (mem0 pb)[k].re + (mem0 pa)[k].im * (mem0 pb)[k].im,
          (mem0 pa)[k].im * (mem0 pb)[k].re - (mem0 pa)[k].re * (mem0 pb)[k].im⟩))
      (by omega)
      (by
        intro p hp
        rw [Function.update_noteq hp]
        exact hother p hp)
      (by rw [Function.update_same, List.length_set]; exact hlen)
      (by
        intro i hi
        rw [Function.update_same, List.getElem?_set_ne (by omega)]
        exact hrest i (by omega))
    refine ⟨m', ?_, h1, h2, ?_, ?_, ?_⟩
    · rw [multiplyConjugateLoop, hra, hrb]
      simp only [hkc, if_true]
      exact hrun
    · intro i hi
      exact h3 i (by omega)
    · intro i hi
      rw [h4 i (by omega), Function.update_same, List.getElem?_set_ne (by omega)]
    · intro i hi1 hi2
      by_cases hik : i = k
      · subst hik
        refine ⟨(mem0 pa)[i], (mem0 pb)[i], List.getElem?_eq_getElem hka,
          List.getElem?_eq_getElem hkb, ?_⟩
        rw [h4 i (by omega), Function.update_same, List.getElem?_set_self hkc]
      · exact h5 i (by omega) (by omega)

theorem wrapINT4_toNat_le (n : ℕ) : (HoughValidate.wrapINT4 (n : ℤ)).toNat ≤ n := by
  unfold HoughValidate.wrapINT4
  omega

theorem wrapINT4_of_lt (n : ℕ) (h : n < 2 ^ 31) :
    (HoughValidate.wrapINT4 (n : ℤ)).toNat = n := by
  unfold HoughValidate.wrapINT4
  omega

/-- C17 (violated by the code): for three vectors of length `2 ^ 31 + 1` (the
output a block of zeros, the inputs blocks of ones) the `UINT4` length stored
in the `INT4` counter `n` (line 69) is negative, the loop `while (n-- > 0)`
makes no pass, the function reports success and element 0 of the output is
still `0`, not `1 * conj(1) = 1`. -/
theorem multiplyConjugate_long_vectors :
    LALZZVectorMultiplyConjugate longMemory (some ⟨2 ^ 31 + 1, some 0⟩)
        (some ⟨2 ^ 31 + 1, some 1⟩) (some ⟨2 ^ 31 + 1, some 2⟩)
      = some (Status.success, longMemory) ∧
    (longMemory 0)[0]? = some ⟨0, 0⟩ ∧ (longMemory 1)[0]? = some ⟨1, 0⟩ ∧
    (longMemory 2)[0]? = some ⟨1, 0⟩ ∧ mul ⟨1, 0⟩ (conj ⟨1, 0⟩) = ⟨1, 0⟩ ∧
    (⟨0, 0⟩ : COMPLEX16) ≠ ⟨1, 0⟩ := by
  have hw : (HoughValidate.wrapINT4 ((2 ^ 31 + 1 : ℕ) : ℤ)).toNat = 0 := by
    unfold HoughValidate.wrapINT4
    norm_num
  have hpos : decide ((2 ^ 31 + 1 : ℕ) > 0) = true := by
    rw [decide_eq_true_eq]
    norm_num
  have heq : decide ((2 ^ 31 + 1 : ℕ) = 2 ^ 31 + 1) = true := by
    rw [decide_eq_true_eq]
  have hget : ∀ p : ℕ, (longMemory p)[0]? = some (if p = 0 then ⟨0, 0⟩ else ⟨1, 0⟩) := by
    intro p
    unfold longMemory
    exact List.getElem?_replicate_of_lt (by norm_num)
  refine ⟨?_, ?_, ?_, ?_, ?_, ?_⟩
  · unfold LALZZVectorMultiplyConjugate
    simp only [ASSERT, hpos, heq, hw, if_true, multiplyConjugateLoop, decide_True]
  · rw [hget 0, if_pos rfl]
  · rw [hget 1, if_neg (by decide)]
  · rw [hget 2, if_neg (by decide)]
  · simp only [mul, conj, COMPLEX16.mk.injEq]
    constructor <;> norm_num
  · intro h
    have := congrArg COMPLEX16.re h
    norm_num at this

/-- For vectors `in1`, `in2` and `out` of equal length `n` with
`0 < n < 2 ^ 31` the function succeeds; for every `k < n` element `k` of the
output is `in1[k] * conj(in2[k])`, that is
`(a.re*b.re + a.im*b.im, a.im*b.re - a.re*b.im)` with `a`, `b` the elements
the inputs held on entry; every block other than the output block, so `in1`
and `in2` when they are distinct from `out`, is unchanged. -/
theorem multiplyConjugate_spec (mem : Memory) (out in1 in2 : COMPLEX16Vector)
    (pc pa pb n : ℕ)
    (hout : out.data = some pc) (hin1 : in1.data = some pa) (hin2 : in2.data = some pb)
    (hn : 0 < n) (hn31 : n < 2 ^ 31)
    (hlo : out.length = n) (hl1 : in1.length = n) (hl2 : in2.length = n)
    (hmo : (mem pc).length = n) (hm1 : (mem pa).length = n) (hm2 : (mem pb).length = n) :
    ∃ mem', LALZZVectorMultiplyConjugate mem (some out) (some in1) (some in2)
        = some (Status.success, mem') ∧
      (mem' pc).length = n ∧
      (∀ k, k < n → ∃ a b, (mem pa)[k]? = some a ∧ (mem pb)[k]? = some b ∧
        (mem' pc)[k]? = some (mul a (conj b)) ∧
        mul a (conj b) = ⟨a.re * b.re + a.im * b.im, a.im * b.re - a.re * b.im⟩) ∧
      (∀ p, p ≠ pc → mem' p = mem p) := by
  obtain ⟨m', hrun, h1, h2, _, _, h5⟩ := multiplyConjugateLoop_spec mem pa pb pc n hm1 hm2 n 0 mem
    (by omega) (fun _ _ => rfl) hmo (fun _ _ => rfl)
  refine ⟨m', ?_, h2, ?_, h1⟩
  · simp only [LALZZVectorMultiplyConjugate, hout, hin1, hin2, ASSERT, hlo, hl1, hl2,
      wrapINT4_of_lt n hn31, hrun]
    simp [hn]
  · intro k hk
    obtain ⟨a, b, hka, hkb, hkc⟩ := h5 k (by omega) (by omega)
    have hmul : mul a (conj b) = ⟨a.re * b.re + a.im * b.im, a.im * b.re - a.re * b.im⟩ := by
      simp only [mul, conj, COMPLEX16.mk.injEq]
      constructor <;> ring
    exact ⟨a, b, hka, hkb, by rw [hmul]; exact hkc, hmul⟩

/-- Instance of the product below `2 ^ 31` elements: `in1 = (1+2i, 3+4i)` at address 1,
`in2 = (5+6i, 7+8i)` at address 2, output at address 0. -/
theorem multiplyConjugate_spec_witness :
    ∃ mem', LALZZVectorMultiplyConjugate
        (fun p => if p = 0 then [⟨0, 0⟩, ⟨0, 0⟩] else if p = 1 then [⟨1, 2⟩, ⟨3, 4⟩]
          else [⟨5, 6⟩, ⟨7, 8⟩])
        (some ⟨2, some 0⟩) (some ⟨2, some 1⟩) (some ⟨2, some 2⟩)
        = some (Status.success, mem') ∧
      (mem' 0).length = 2 ∧
      (∀ k, k < 2 → ∃ a b,
        ((fun p => if p = 0 then [⟨0, 0⟩, ⟨0, 0⟩] else if p = 1 then [⟨1, 2⟩, ⟨3, 4⟩]
          else [⟨5, 6⟩, ⟨7, 8⟩] : Memory) 1)[k]? = some a ∧
        ((fun p => if p = 0 then [⟨0, 0⟩, ⟨0, 0⟩] else if p = 1 then [⟨1, 2⟩, ⟨3, 4⟩]
          else [⟨5, 6⟩, ⟨7, 8⟩] : Memory) 2)[k]? = some b ∧
        (mem' 0)[k]? = some (mul a (conj b)) ∧
        mul a (conj b) = ⟨a.re * b.re + a.im * b.im, a.im * b.re - a.re * b.im⟩) ∧
      (∀ p, p ≠ 0 →
        mem' p = (fun p => if p = 0 then [⟨0, 0⟩, ⟨0, 0⟩] else if p = 1 then [⟨1, 2⟩, ⟨3, 4⟩]
          else [⟨5, 6⟩, ⟨7, 8⟩] : Memory) p) :=
  multiplyConjugate_spec
    (fun p => if p = 0 then [⟨0, 0⟩, ⟨0, 0⟩] else if p = 1 then [⟨1, 2⟩, ⟨3, 4⟩]
      else [⟨5, 6⟩, ⟨7, 8⟩])
    ⟨2, some 0⟩ ⟨2, some 1⟩ ⟨2, some 2⟩ 0 1 2 2 rfl rfl rfl (by decide) (by norm_num)
    rfl rfl rfl rfl rfl rfl

/-- C18: with vectors and data pointers that are not `NULL`, the function
fails with `ESIZE` when the output length is 0 and with `ESZMM` when the
length of `in1` or of `in2` differs from the non-zero output length, the
memory being unchanged in each failing case; and, the blocks having the
lengths of their vectors, it succeeds exactly when the three lengths are equal
and positive. -/
theorem multiplyConjugate_status (mem : Memory) (out in1 in2 : COMPLEX16Vector)
    (pc pa pb : ℕ)
    (hout : out.data = some pc) (hin1 : in1.data = some pa) (hin2 : in2.data = some pb) :
    (out.length = 0 →
      LALZZVectorMultiplyConjugate mem (some out) (some in1) (some in2)
        = some (Status.ESIZE, mem)) ∧
    (0 < out.length → (in1.length ≠ out.length ∨ in2.length ≠ out.length) →
      LALZZVectorMultiplyConjugate mem (some out) (some in1) (some in2)
        = some (Status.ESZMM, mem)) ∧
    ((mem pc).length = out.length → (mem pa).length = in1.length →
      (mem pb).length = in2.length →
      ((∃ mem', LALZZVectorMultiplyConjugate mem (some out) (some in1) (some in2)
          = some (Status.success, mem')) ↔
        (0 < out.length ∧ in1.length = out.length ∧ in2.length = out.length))) := by
  refine ⟨?_, ?_, ?_⟩
  · intro h0
    simp [LALZZVectorMultiplyConjugate, hout, hin1, hin2, ASSERT, h0]
  · intro hpos hne
    rcases hne with h | h
    · simp [LALZZVectorMultiplyConjugate, hout, hin1, hin2, ASSERT, hpos, h]
    · by_cases h1 : in1.length = out.length
      · simp [LALZZVectorMultiplyConjugate, hout, hin1, hin2, ASSERT, hpos, h, h1]
      · simp [LALZZVectorMultiplyConjugate, hout, hin1, hin2, ASSERT, hpos, h1]
  · intro hmo hm1 hm2
    constructor
    · rintro ⟨mem', hrun⟩
      by_cases hpos : 0 < out.length
      · by_cases h1 : in1.length = out.length
        · by_cases h2 : in2.length = out.length
          · exact ⟨hpos, h1, h2⟩
          · simp [LALZZVectorMultiplyConjugate, hout, hin1, hin2, ASSERT, hpos, h1, h2] at hrun
        · simp [LALZZVectorMultiplyConjugate, hout, hin1, hin2, ASSERT, hpos, h1] at hrun
      · simp [LALZZVectorMultiplyConjugate, hout, hin1, hin2, ASSERT, hpos] at hrun
    · rintro ⟨hpos, h1, h2⟩
      obtain ⟨m', hrun, _⟩ := multiplyConjugateLoop_spec mem pa pb pc out.length
        (by rw [hm1, h1]) (by rw [hm2, h2])
        (HoughValidate.wrapINT4 (out.length : ℤ)).toNat 0 mem
        (by have := wrapINT4_toNat_le out.length; omega) (fun _ _ => rfl) hmo (fun _ _ => rfl)
      refine ⟨m', ?_⟩
      simp only [LALZZVectorMultiplyConjugate, hout, hin1, hin2, ASSERT, h1, h2, hrun]
      simp [hpos]

/-- Instance of C18: an output vector of length 3 against inputs of length 2
gives `ESZMM`. -/
theorem multiplyConjugate_status_witness :
    LALZZVectorMultiplyConjugate (fun _ => [⟨1, 0⟩, ⟨2, 0⟩, ⟨3, 0⟩]) (some ⟨3, some 0⟩)
      (some ⟨2, some 1⟩) (some ⟨2, some 2⟩)
      = some (Status.ESZMM, fun _ => [⟨1, 0⟩, ⟨2, 0⟩, ⟨3, 0⟩]) :=
  (multiplyConjugate_status (fun _ => [⟨1, 0⟩, ⟨2, 0⟩, ⟨3, 0⟩]) ⟨3, some 0⟩ ⟨2, some 1⟩
    ⟨2, some 2⟩ 0 1 2 rfl rfl rfl).2.1 (by decide) (Or.inl (by decide))

end VectorOps

namespace ComplexFFT

open LALStatus

/-- C19: each of the four plan constructors, on a handle that is not `NULL`,
fails with `ENNUL` when the handle holds a plan, fails with `ESIZE` when it is
empty and `size = 0`, and for `size > 0` either stores a plan with the
requested size and sign `+1` (forward) or `-1` (inverse), or reports `ENULL`
and leaves the handle `NULL`; the plan is stored exactly when `LALMalloc` and
`fftw_create_plan` both succeed, so the Estimate and Measure variants store
the same size and sign. -/
theorem create_plan_spec (env : Environment) (size : ℕ) :
    (∀ p : ComplexFFTPlan,
      LALEstimateFwdComplexFFTPlan env (some (some p)) size = (Status.ENNUL, some (some p)) ∧
      LALEstimateInvComplexFFTPlan env (some (some p)) size = (Status.ENNUL, some (some p)) ∧
      LALMeasureFwdComplexFFTPlan env (some (some p)) size = (Status.ENNUL, some (some p)) ∧
      LALMeasureInvComplexFFTPlan env (some (some p)) size = (Status.ENNUL, some (some p))) ∧
    (size = 0 →
      LALEstimateFwdComplexFFTPlan env (some none) size = (Status.ESIZE, some none) ∧
      LALEstimateInvComplexFFTPlan env (some none) size = (Status.ESIZE, some none) ∧
      LALMeasureFwdComplexFFTPlan env (some none) size = (Status.ESIZE, some none) ∧
      LALMeasureInvComplexFFTPlan env (some none) size = (Status.ESIZE, some none)) ∧
    (0 < size →
      ((∃ p, LALEstimateFwdComplexFFTPlan env (some none) size
            = (Status.success, some (some ⟨size, 1, p⟩))) ∨
        LALEstimateFwdComplexFFTPlan env (some none) size = (Status.ENULL, some none)) ∧
      ((∃ p, LALEstimateInvComplexFFTPlan env (some none) size
            = (Status.success, some (some ⟨size, -1, p⟩))) ∨
        LALEstimateInvComplexFFTPlan env (some none) size = (Status.ENULL, some none)) ∧
      ((∃ p, LALMeasureFwdComplexFFTPlan env (some none) size
            = (Status.success, some (some ⟨size, 1, p⟩))) ∨
        LALMeasureFwdComplexFFTPlan env (some none) size = (Status.ENULL, some none)) ∧
      ((∃ p, LALMeasureInvComplexFFTPlan env (some none) size
            = (Status.success, some (some ⟨size, -1, p⟩))) ∨
        LALMeasureInvComplexFFTPlan env (some none) size = (Status.ENULL, some none))) ∧
    (0 < size → env.LALMalloc = true →
      ∀ pe pm : ℕ,
        (env.fftw_create_plan size 1 PlannerFlag.FFTW_ESTIMATE = some pe →
          env.fftw_create_plan size 1 PlannerFlag.FFTW_MEASURE = some pm →
          LALEstimateFwdComplexFFTPlan env (some none) size
            = (Status.success, some (some ⟨size, 1, pe⟩)) ∧
          LALMeasureFwdComplexFFTPlan env (some none) size
            = (Status.success, some (some ⟨size, 1, pm⟩))) ∧
        (env.fftw_create_plan size (-1) PlannerFlag.FFTW_ESTIMATE = some pe →
          env.fftw_create_plan size (-1) PlannerFlag.FFTW_MEASURE = some pm →
          LALEstimateInvComplexFFTPlan env (some none) size
            = (Status.success, some (some ⟨size, -1, pe⟩)) ∧
          LALMeasureInvComplexFFTPlan env (some none) size
            = (Status.success, some (some ⟨size, -1, pm⟩)))) := by
  refine ⟨?_, ?_, ?_, ?_⟩
  · intro p
    simp [LALEstimateFwdComplexFFTPlan, LALEstimateInvComplexFFTPlan,
      LALMeasureFwdComplexFFTPlan, LALMeasureInvComplexFFTPlan, ASSERT]
  · intro h0
    simp [LALEstimateFwdComplexFFTPlan, LALEstimateInvComplexFFTPlan,
      LALMeasureFwdComplexFFTPlan, LALMeasureInvComplexFFTPlan, ASSERT, h0]
  · intro hpos
    refine ⟨?_, ?_, ?_, ?_⟩
    · cases hm : env.LALMalloc <;>
        cases hp : env.fftw_create_plan size 1 PlannerFlag.FFTW_ESTIMATE <;>
        simp [LALEstimateFwdComplexFFTPlan, ASSERT, hpos, hm, hp]
    · cases hm : env.LALMalloc <;>
        cases hp : env.fftw_create_plan size (-1) PlannerFlag.FFTW_ESTIMATE <;>
        simp [LALEstimateInvComplexFFTPlan, ASSERT, hpos, hm, hp]
    · cases hm : env.LALMalloc <;>
        cases hp : env.fftw_create_plan size 1 PlannerFlag.FFTW_MEASURE <;>
        simp [LALMeasureFwdComplexFFTPlan, ASSERT, hpos, hm, hp]
    · cases hm : env.LALMalloc <;>
        cases hp : env.fftw_create_plan size (-1) PlannerFlag.FFTW_MEASURE <;>
        simp [LALMeasureInvComplexFFTPlan, ASSERT, hpos, hm, hp]
  · intro hpos hm pe pm
    constructor
    · intro he hme
      simp [LALEstimateFwdComplexFFTPlan, LALMeasureFwdComplexFFTPlan, ASSERT, hpos, hm, he, hme]
    · intro he hme
      simp [LALEstimateInvComplexFFTPlan, LALMeasureInvComplexFFTPlan, ASSERT, hpos, hm, he, hme]

/-- Instance of C19: size 8, allocation and planning succeed, the planner
returning plan 7 for an estimate and plan 9 for a measure. -/
theorem create_plan_spec_witness :
    LALEstimateInvComplexFFTPlan
        ⟨true, fun _ _ f => if f = PlannerFlag.FFTW_ESTIMATE then some 7 else some 9⟩
        (some none) 8 = (Status.success, some (some ⟨8, -1, 7⟩)) ∧
    LALMeasureInvComplexFFTPlan
        ⟨true, fun _ _ f => if f = PlannerFlag.FFTW_ESTIMATE then some 7 else some 9⟩
        (some none) 8 = (Status.success, some (some ⟨8, -1, 9⟩)) :=
  ((create_plan_spec
      ⟨true, fun _ _ f => if f = PlannerFlag.FFTW_ESTIMATE then some 7 else some 9⟩ 8).2.2.2
    (by decide) rfl 7 9).2 rfl rfl

/-- C20: on a handle holding a plan the destructor succeeds and resets the
handle to `NULL`; on a handle that is already `NULL` it fails with `ENULL` and
leaves it `NULL`.  Hence, for each of the four constructors, a plan created
and then destroyed leaves the handle in its initial state, in which the
constructor creates the plan again, and a second destruction in a row
fails. -/
theorem destroy_plan_spec (env : Environment) (size : ℕ) (h : Handle) :
    (∀ p : ComplexFFTPlan,
      LALDestroyComplexFFTPlan (some (some p)) = (Status.success, some none) ∧
      LALDestroyComplexFFTPlan (LALDestroyComplexFFTPlan (some (some p))).2
        = (Status.ENULL, some none)) ∧
    LALDestroyComplexFFTPlan (some none) = (Status.ENULL, some none) ∧
    (LALEstimateFwdComplexFFTPlan env (some none) size = (Status.success, h) →
      LALDestroyComplexFFTPlan h = (Status.success, some none) ∧
      LALEstimateFwdComplexFFTPlan env (LALDestroyComplexFFTPlan h).2 size
        = (Status.success, h) ∧
      LALDestroyComplexFFTPlan (LALDestroyComplexFFTPlan h).2 = (Status.ENULL, some none)) ∧
    (LALEstimateInvComplexFFTPlan env (some none) size = (Status.success, h) →
      LALDestroyComplexFFTPlan h = (Status.success, some none) ∧
      LALEstimateInvComplexFFTPlan env (LALDestroyComplexFFTPlan h).2 size
        = (Status.success, h) ∧
      LALDestroyComplexFFTPlan (LALDestroyComplexFFTPlan h).2 = (Status.ENULL, some none)) ∧
    (LALMeasureFwdComplexFFTPlan env (some none) size = (Status.success, h) →
      LALDestroyComplexFFTPlan h = (Status.success, some none) ∧
      LALMeasureFwdComplexFFTPlan env (LALDestroyComplexFFTPlan h).2 size
        = (Status.success, h) ∧
      LALDestroyComplexFFTPlan (LALDestroyComplexFFTPlan h).2 = (Status.ENULL, some none)) ∧
    (LALMeasureInvComplexFFTPlan env (some none) size = (Status.success, h) →
      LALDestroyComplexFFTPlan h = (Status.success, some none) ∧
      LALMeasureInvComplexFFTPlan env (LALDestroyComplexFFTPlan h).2 size
        = (Status.success, h) ∧
      LALDestroyComplexFFTPlan (LALDestroyComplexFFTPlan h).2 = (Status.ENULL, some none)) := by
  have hd : ∀ p : ComplexFFTPlan,
      LALDestroyComplexFFTPlan (some (some p)) = (Status.success, some none) := by
    intro p
    simp [LALDestroyComplexFFTPlan, ASSERT]
  have hn : LALDestroyComplexFFTPlan (some none) = (Status.ENULL, some none) := by
    simp [LALDestroyComplexFFTPlan, ASSERT]
  have hholds : ∀ (f : Environment → Handle → ℕ → Status × Handle),
      (∀ hh, f env (some none) size = (Status.success, hh) → ∃ p, hh = some (some p)) →
      f env (some none) size = (Status.success, h) →
      LALDestroyComplexFFTPlan h = (Status.success, some none) ∧
      f env (LALDestroyComplexFFTPlan h).2 size = (Status.success, h) ∧
      LALDestroyComplexFFTPlan (LALDestroyComplexFFTPlan h).2 = (Status.ENULL, some none) := by
    intro f hf hrun
    obtain ⟨p, hp⟩ := hf h hrun
    rw [hp, hd p]
    rw [hp] at hrun
    exact ⟨rfl, hrun, hn⟩
  refine ⟨fun p => ⟨hd p, by rw [hd p]; exact hn⟩, hn, ?_, ?_, ?_, ?_⟩
  · refine hholds LALEstimateFwdComplexFFTPlan ?_
    intro hh hrun
    by_cases hs : 0 < size
    · cases hm : env.LALMalloc <;>
        cases hp : env.fftw_create_plan size 1 PlannerFlag.FFTW_ESTIMATE <;>
        simp [LALEstimateFwdComplexFFTPlan, ASSERT, hs, hm, hp] at hrun
      exact ⟨_, hrun.symm⟩
    · simp [LALEstimateFwdComplexFFTPlan, ASSERT, hs] at hrun
  · refine hholds LALEstimateInvComplexFFTPlan ?_
    intro hh hrun
    by_cases hs : 0 < size
    · cases hm : env.LALMalloc <;>
        cases hp : env.fftw_create_plan size (-1) PlannerFlag.FFTW_ESTIMATE <;>
        simp [LALEstimateInvComplexFFTPlan, ASSERT, hs, hm, hp] at hrun
      exact ⟨_, hrun.symm⟩
    · simp [LALEstimateInvComplexFFTPlan, ASSERT, hs] at hrun
  · refine hholds LALMeasureFwdComplexFFTPlan ?_
    intro hh hrun
    by_cases hs : 0 < size
    · cases hm : env.LALMalloc <;>
        cases hp : env.fftw_create_plan size 1 PlannerFlag.FFTW_MEASURE <;>
        simp [LALMeasureFwdComplexFFTPlan, ASSERT, hs, hm, hp] at hrun
      exact ⟨_, hrun.symm⟩
    · simp [LALMeasureFwdComplexFFTPlan, ASSERT, hs] at hrun
  · refine hholds LALMeasureInvComplexFFTPlan ?_
    intro hh hrun
    by_cases hs : 0 < size
    · cases hm : env.LALMalloc <;>
        cases hp : env.fftw_create_plan size (-1) PlannerFlag.FFTW_MEASURE <;>
        simp [LALMeasureInvComplexFFTPlan, ASSERT, hs, hm, hp] at hrun
      exact ⟨_, hrun.symm⟩
    · simp [LALMeasureInvComplexFFTPlan, ASSERT, hs] at hrun

/-- Instance of C20: a forward estimate plan of size 8 is created, destroyed,
created again, and destroyed twice in a row. -/
theorem destroy_plan_spec_witness :
    LALDestroyComplexFFTPlan (some (some ⟨8, 1, 7⟩)) = (Status.success, some none) ∧
    LALEstimateFwdComplexFFTPlan ⟨true, fun _ _ _ => some 7⟩
        (LALDestroyComplexFFTPlan (some (some ⟨8, 1, 7⟩))).2 8
      = (Status.success, some (some ⟨8, 1, 7⟩)) ∧
    LALDestroyComplexFFTPlan (LALDestroyComplexFFTPlan (some (some ⟨8, 1, 7⟩))).2
      = (Status.ENULL, some none) :=
  (destroy_plan_spec ⟨true, fun _ _ _ => some 7⟩ 8 (some (some ⟨8, 1, 7⟩))).2.2.1 rfl

end ComplexFFT

namespace ComplexFFT

open LALStatus

/-- C21: with arguments and data pointers that are not `NULL`,
`LALCOMPLEX8VectorFFT` fails with `ESAME` when output and input share their
data block, with `ESIZE` when the plan size is 0, with `ESZMM` when the output
or the input length differs from the plan size; it succeeds, and then writes
the transform of the input block at the output address, exactly when the
blocks are distinct and both lengths equal the positive plan size; when it
fails the memory is unchanged. -/
theorem vectorFFT_status (fftw_one : ℕ → List COMPLEX8 → List COMPLEX8) (mem : Memory)
    (vout vinp : COMPLEX8Vector) (plan : ComplexFFTPlan) (pout pinp : ℕ)
    (hout : vout.data = some pout) (hinp : vinp.data = some pinp) :
    (pout = pinp →
      LALCOMPLEX8VectorFFT fftw_one mem (some vout) (some vinp) (some plan)
        = (Status.ESAME, mem)) ∧
    (pout ≠ pinp → plan.size = 0 →
      LALCOMPLEX8VectorFFT fftw_one mem (some vout) (some vinp) (some plan)
        = (Status.ESIZE, mem)) ∧
    (pout ≠ pinp → 0 < plan.size →
      (vout.length ≠ plan.size ∨ vinp.length ≠ plan.size) →
      LALCOMPLEX8VectorFFT fftw_one mem (some vout) (some vinp) (some plan)
        = (Status.ESZMM, mem)) ∧
    ((LALCOMPLEX8VectorFFT fftw_one mem (some vout) (some vinp) (some plan)).1 = Status.success ↔
      (pout ≠ pinp ∧ 0 < plan.size ∧ vout.length = plan.size ∧ vinp.length = plan.size)) ∧
    ((pout ≠ pinp ∧ 0 < plan.size ∧ vout.length = plan.size ∧ vinp.length = plan.size) →
      LALCOMPLEX8VectorFFT fftw_one mem (some vout) (some vinp) (some plan)
        = (Status.success, Function.update mem pout (fftw_one plan.plan (mem pinp)))) ∧
    ((LALCOMPLEX8VectorFFT fftw_one mem (some vout) (some vinp) (some plan)).1 ≠ Status.success →
      (LALCOMPLEX8VectorFFT fftw_one mem (some vout) (some vinp) (some plan)).2 = mem) := by
  by_cases hsame : pout = pinp
  · have hres : LALCOMPLEX8VectorFFT fftw_one mem (some vout) (some vinp) (some plan)
        = (Status.ESAME, mem) := by
      simp [LALCOMPLEX8VectorFFT, hout, hinp, ASSERT, hsame]
    rw [hres]
    refine ⟨fun _ => rfl, fun h => absurd hsame h, fun h => absurd hsame h, ?_,
      fun h => absurd hsame h.1, fun _ => rfl⟩
    constructor
    · intro h; simp at h
    · intro h; exact absurd hsame h.1
  · by_cases hsize : 0 < plan.size
    · by_cases hlo : vout.length = plan.size
      · by_cases hli : vinp.length = plan.size
        · have hres : LALCOMPLEX8VectorFFT fftw_one mem (some vout) (some vinp) (some plan)
              = (Status.success,
                  Function.update mem pout (fftw_one plan.plan (mem pinp))) := by
            simp [LALCOMPLEX8VectorFFT, hout, hinp, ASSERT, hsame, hsize, hlo, hli]
          rw [hres]
          refine ⟨fun h => absurd h hsame, fun _ h => by omega, ?_, ?_, fun _ => rfl,
            fun h => absurd rfl h⟩
          · intro _ _ h
            rcases h with h | h
            · exact absurd hlo h
            · exact absurd hli h
          · exact ⟨fun _ => ⟨hsame, hsize, hlo, hli⟩, fun _ => rfl⟩
        · have hres : LALCOMPLEX8VectorFFT fftw_one mem (some vout) (some vinp) (some plan)
              = (Status.ESZMM, mem) := by
            simp [LALCOMPLEX8VectorFFT, hout, hinp, ASSERT, hsame, hsize, hlo, hli]
          rw [hres]
          refine ⟨fun h => absurd h hsame, fun _ h => by omega, fun _ _ _ => rfl, ?_,
            fun h => absurd h.2.2.2 hli, fun _ => rfl⟩
          constructor
          · intro h; simp at h
          · intro h; exact absurd h.2.2.2 hli
      · have hres : LALCOMPLEX8VectorFFT fftw_one mem (some vout) (some vinp) (some plan)
            = (Status.ESZMM, mem) := by
          simp [LALCOMPLEX8VectorFFT, hout, hinp, ASSERT, hsame, hsize, hlo]
        rw [hres]
        refine ⟨fun h => absurd h hsame, fun _ h => by omega, fun _ _ _ => rfl, ?_,
          fun h => absurd h.2.2.1 hlo, fun _ => rfl⟩
        constructor
        · intro h; simp at h
        · intro h; exact absurd h.2.2.1 hlo
    · have hres : LALCOMPLEX8VectorFFT fftw_one mem (some vout) (some vinp) (some plan)
          = (Status.ESIZE, mem) := by
        simp [LALCOMPLEX8VectorFFT, hout, hinp, ASSERT, hsame, hsize]
      rw [hres]
      refine ⟨fun h => absurd h hsame, fun _ _ => rfl, fun _ h => absurd h hsize, ?_,
        fun h => absurd h.2.1 hsize, fun _ => rfl⟩
      constructor
      · intro h; simp at h
      · intro h; exact absurd h.2.1 hsize

/-- Instance of C21: output and input vectors of length 4 on the same block,
with a plan of size 4, give `ESAME`. -/
theorem vectorFFT_status_witness :
    LALCOMPLEX8VectorFFT (fun _ x => x) (fun _ => [⟨1, 0⟩, ⟨2, 0⟩, ⟨3, 0⟩, ⟨4, 0⟩])
        (some ⟨4, some 0⟩) (some ⟨4, some 0⟩) (some ⟨4, 1, 7⟩)
      = (Status.ESAME, fun _ => [⟨1, 0⟩, ⟨2, 0⟩, ⟨3, 0⟩, ⟨4, 0⟩]) :=
  (vectorFFT_status (fun _ x => x) (fun _ => [⟨1, 0⟩, ⟨2, 0⟩, ⟨3, 0⟩, ⟨4, 0⟩])
    ⟨4, some 0⟩ ⟨4, some 0⟩ ⟨4, 1, 7⟩ 0 0 rfl rfl).1 rfl

end ComplexFFT

namespace Stochastic

/-- C22: on an input series of length `N > 0` with positive time spacing and
pointers that are not `NULL`, `LALSZeroPadAndFFT` fails with `ENONZEROHETERO`
whenever the heterodyne frequency `f0` of the input is not zero, negative or
positive, and, `f0` being zero, with `EMMLEN` whenever the output length
differs from `N` or the plan size differs from `2N - 1`; the output series is
left as it was. -/
theorem zeroPadAndFFT_rejects (cos2pi sin2pi : ℚ → ℚ) (out : COMPLEX8FrequencySeries)
    (inp : REAL4TimeSeries) (plan : RealFFTPlan) (outVec : COMPLEX8Vector)
    (inVec : REAL4Vector) (od : List (ℚ × ℚ)) (h : List ℚ)
    (hout : out.data = some outVec) (hin : inp.data = some inVec)
    (hod : outVec.data = some od) (hh : inVec.data = some h)
    (hN : 0 < inVec.length) (hdt : 0 < inp.deltaT) :
    (inp.f0 ≠ 0 →
      LALSZeroPadAndFFT cos2pi sin2pi (some out) (some inp) (some plan)
        = (Status.ENONZEROHETERO, some out)) ∧
    (inp.f0 = 0 → (outVec.length ≠ inVec.length ∨ plan.size ≠ 2 * inVec.length - 1) →
      LALSZeroPadAndFFT cos2pi sin2pi (some out) (some inp) (some plan)
        = (Status.EMMLEN, some out)) := by
  have hN' : inVec.length ≠ 0 := by omega
  have hdt' : ¬ inp.deltaT ≤ 0 := not_le.mpr hdt
  constructor
  · intro hf
    simp [LALSZeroPadAndFFT, hout, hin, hod, hh, hN', hdt', hf]
  · intro hf hmm
    by_cases hl : outVec.length = inVec.length
    · rcases hmm with hmm | hmm
      · exact absurd hl hmm
      · simp [LALSZeroPadAndFFT, hout, hin, hod, hh, hN', hdt', hf, hl, hmm]
    · simp [LALSZeroPadAndFFT, hout, hin, hod, hh, hN', hdt', hf, hl]

/-- Instance of C22: the test's series of length 8 with `f0 = -100`. -/
theorem zeroPadAndFFT_rejects_witness :
    LALSZeroPadAndFFT (fun _ => 1) (fun _ => 0)
        (some ⟨⟨0, 0⟩, 0, 0, [], some ⟨8, some []⟩⟩)
        (some ⟨⟨1234, 56789⟩, 1 / 2, -100, lalADCCountUnit,
          some ⟨8, some [1, 2, 3, 4, 5, 6, 7, 8]⟩⟩) (some ⟨15⟩)
      = (Status.ENONZEROHETERO, some ⟨⟨0, 0⟩, 0, 0, [], some ⟨8, some []⟩⟩) :=
  (zeroPadAndFFT_rejects (fun _ => 1) (fun _ => 0) ⟨⟨0, 0⟩, 0, 0, [], some ⟨8, some []⟩⟩
    ⟨⟨1234, 56789⟩, 1 / 2, -100, lalADCCountUnit, some ⟨8, some [1, 2, 3, 4, 5, 6, 7, 8]⟩⟩
    ⟨15⟩ ⟨8, some []⟩ ⟨8, some [1, 2, 3, 4, 5, 6, 7, 8]⟩ [] [1, 2, 3, 4, 5, 6, 7, 8]
    rfl rfl rfl rfl (by decide) (by norm_num)).1 (by norm_num)

/-- The output series of a valid call. -/
theorem zeroPadAndFFT_valid (cos2pi sin2pi : ℚ → ℚ) (out : COMPLEX8FrequencySeries)
    (inp : REAL4TimeSeries) (plan : RealFFTPlan) (outVec : COMPLEX8Vector)
    (inVec : REAL4Vector) (od : List (ℚ × ℚ)) (h : List ℚ)
    (hout : out.data = some outVec) (hin : inp.data = some inVec)
    (hod : outVec.data = some od) (hh : inVec.data = some h)
    (hN : 0 < inVec.length) (hdt : 0 < inp.deltaT) (hf : inp.f0 = 0)
    (hl : outVec.length = inVec.length) (hp : plan.size = 2 * inVec.length - 1) :
    LALSZeroPadAndFFT cos2pi sin2pi (some out) (some inp) (some plan)
      = (Status.success,
          some { epoch := inp.epoch
                 f0 := 0
                 deltaF := 1 / (((2 * inVec.length - 1 : ℕ) : ℚ) * inp.deltaT)
                 sampleUnits := unitMultiply inp.sampleUnits lalSecondUnit
                 data := some
                   { length := inVec.length
                     data := some ((List.range inVec.length).map fun k =>
                       (inp.deltaT
                          * (dftBin cos2pi sin2pi
                              (h ++ List.replicate (inVec.length - 1) 0) k).1,
                        inp.deltaT
                          * (dftBin cos2pi sin2pi
                              (h ++ List.replicate (inVec.length - 1) 0) k).2)) } }) := by
  have hN' : inVec.length ≠ 0 := by omega
  have hdt' : ¬ inp.deltaT ≤ 0 := not_le.mpr hdt
  simp [LALSZeroPadAndFFT, hout, hin, hod, hh, hN', hdt', hf, hl, hp]

/-- C23: for a valid input series of length `N` with `f0 = 0`, time spacing
`δt > 0` and a plan of size `2N - 1`, `LALSZeroPadAndFFT` succeeds and returns
a frequency series of length `N` with `f0 = 0`,
`deltaF = 1/((2N-1)·δt)`, the epoch of the input and the units of the input
times seconds. -/
theorem zeroPadAndFFT_metadata (cos2pi sin2pi : ℚ → ℚ) (out : COMPLEX8FrequencySeries)
    (inp : REAL4TimeSeries) (plan : RealFFTPlan) (outVec : COMPLEX8Vector)
    (inVec : REAL4Vector) (od : List (ℚ × ℚ)) (h : List ℚ) (N : ℕ)
    (hout : out.data = some outVec) (hin : inp.data = some inVec)
    (hod : outVec.data = some od) (hh : inVec.data = some h)
    (hN : 0 < N) (hlen : inVec.length = N) (hdt : 0 < inp.deltaT) (hf : inp.f0 = 0)
    (hl : outVec.length = N) (hp : plan.size = 2 * N - 1) :
    ∃ res resVec resData,
      LALSZeroPadAndFFT cos2pi sin2pi (some out) (some inp) (some plan)
        = (Status.success, some res) ∧
      res.data = some resVec ∧ resVec.data = some resData ∧
      resVec.length = N ∧ resData.length = N ∧
      res.f0 = 0 ∧ res.deltaF = 1 / (((2 * N - 1 : ℕ) : ℚ) * inp.deltaT) ∧
      res.epoch = inp.epoch ∧
      res.sampleUnits = unitMultiply inp.sampleUnits lalSecondUnit := by
  subst hlen
  have hv := zeroPadAndFFT_valid cos2pi sin2pi out inp plan outVec inVec od h hout hin hod hh
    hN hdt hf hl hp
  exact ⟨_, _, _, hv, rfl, rfl, rfl, by simp, rfl, rfl, rfl, rfl⟩

/-- Instance of C23: `N = 8`, `δt = 0.5`, epoch 1234 s 56789 ns, units ADC
count: `deltaF = 1/(15 · 0.5)` and the units are ADC count times second. -/
theorem zeroPadAndFFT_metadata_witness :
    ∃ res resVec resData,
      LALSZeroPadAndFFT (fun _ => 1) (fun _ => 0)
          (some ⟨⟨0, 0⟩, 0, 0, [], some ⟨8, some []⟩⟩)
          (some ⟨⟨1234, 56789⟩, 1 / 2, 0, lalADCCountUnit,
            some ⟨8, some [1, 2, 3, 4, 5, 6, 7, 8]⟩⟩) (some ⟨15⟩)
        = (Status.success, some res) ∧
      res.data = some resVec ∧ resVec.data = some resData ∧
      resVec.length = 8 ∧ resData.length = 8 ∧
      res.f0 = 0 ∧ res.deltaF = 1 / (((2 * 8 - 1 : ℕ) : ℚ) * (1 / 2)) ∧
      res.epoch = ⟨1234, 56789⟩ ∧
      res.sampleUnits = unitMultiply lalADCCountUnit lalSecondUnit :=
  zeroPadAndFFT_metadata (fun _ => 1) (fun _ => 0) ⟨⟨0, 0⟩, 0, 0, [], some ⟨8, some []⟩⟩
    ⟨⟨1234, 56789⟩, 1 / 2, 0, lalADCCountUnit, some ⟨8, some [1, 2, 3, 4, 5, 6, 7, 8]⟩⟩
    ⟨15⟩ ⟨8, some []⟩ ⟨8, some [1, 2, 3, 4, 5, 6, 7, 8]⟩ [] [1, 2, 3, 4, 5, 6, 7, 8] 8
    rfl rfl rfl rfl (by decide) rfl (by norm_num) rfl rfl rfl

theorem dftBin_zero (cos2pi sin2pi : ℚ → ℚ) (x : List ℚ)
    (hc : cos2pi 0 = 1) (hs : sin2pi 0 = 0) :
    dftBin cos2pi sin2pi x 0 = (x.sum, 0) := by
  have hsum : ∀ l : List ℚ, ∑ j in Finset.range l.length, l.getD j 0 = l.sum := by
    intro l
    induction l with
    | nil => simp
    | cons a l ih =>
      rw [List.length_cons, Finset.sum_range_succ', List.sum_cons]
      simp only [List.getD_cons_succ, List.getD_cons_zero]
      rw [ih]
      ring
  unfold dftBin
  simp only [Nat.cast_zero, mul_zero, zero_div, hc, hs, mul_one, Finset.sum_const_zero,
    neg_zero]
  rw [hsum]

/-- C24: for a valid real input `h` of length `N` with time spacing `δt`
(`cos 0 = 1`, `sin 0 = 0`), the zero-frequency bin of the output of
`LALSZeroPadAndFFT` is `(δt · Σ_k h[k], 0)`. -/
theorem zeroPadAndFFT_bin_zero (cos2pi sin2pi : ℚ → ℚ) (out : COMPLEX8FrequencySeries)
    (inp : REAL4TimeSeries) (plan : RealFFTPlan) (outVec : COMPLEX8Vector)
    (inVec : REAL4Vector) (od : List (ℚ × ℚ)) (h : List ℚ)
    (hc : cos2pi 0 = 1) (hs : sin2pi 0 = 0)
    (hout : out.data = some outVec) (hin : inp.data = some inVec)
    (hod : outVec.data = some od) (hh : inVec.data = some h)
    (hN : 0 < inVec.length) (hdt : 0 < inp.deltaT) (hf : inp.f0 = 0)
    (hl : outVec.length = inVec.length) (hp : plan.size = 2 * inVec.length - 1) :
    ∃ res resVec resData,
      LALSZeroPadAndFFT cos2pi sin2pi (some out) (some inp) (some plan)
        = (Status.success, some res) ∧
      res.data = some resVec ∧ resVec.data = some resData ∧
      resData[0]? = some (inp.deltaT * h.sum, 0) := by
  have hv := zeroPadAndFFT_valid cos2pi sin2pi out inp plan outVec inVec od h hout hin hod hh
    hN hdt hf hl hp
  refine ⟨_, _, _, hv, rfl, rfl, ?_⟩
  have hpad : (h ++ List.replicate (inVec.length - 1) 0).sum = h.sum := by
    simp
  rw [List.getElem?_map, List.getElem?_range hN]
  simp only [Option.map_some', dftBin_zero cos2pi sin2pi _ hc hs, hpad, mul_zero]

/-- Instance of C24: `h = 1, ..., 8` and `δt = 0.5` give the bin
`(0.5 · 36, 0)`, that is `(18, 0)`. -/
theorem zeroPadAndFFT_bin_zero_witness :
    ∃ res resVec resData,
      LALSZeroPadAndFFT (fun u => if u = 0 then 1 else 0) (fun _ => 0)
          (some ⟨⟨0, 0⟩, 0, 0, [], some ⟨8, some []⟩⟩)
          (some ⟨⟨1234, 56789⟩, 1 / 2, 0, lalADCCountUnit,
            some ⟨8, some [1, 2, 3, 4, 5, 6, 7, 8]⟩⟩) (some ⟨15⟩)
        = (Status.success, some res) ∧
      res.data = some resVec ∧ resVec.data = some resData ∧
      resData[0]? = some ((1 / 2 : ℚ) * List.sum [1, 2, 3, 4, 5, 6, 7, 8], 0) :=
  zeroPadAndFFT_bin_zero (fun u => if u = 0 then 1 else 0) (fun _ => 0)
    ⟨⟨0, 0⟩, 0, 0, [], some ⟨8, some []⟩⟩
    ⟨⟨1234, 56789⟩, 1 / 2, 0, lalADCCountUnit, some ⟨8, some [1, 2, 3, 4, 5, 6, 7, 8]⟩⟩
    ⟨15⟩ ⟨8, some []⟩ ⟨8, some [1, 2, 3, 4, 5, 6, 7, 8]⟩ [] [1, 2, 3, 4, 5, 6, 7, 8]
    (by simp) rfl rfl rfl rfl rfl (by decide) (by norm_num) rfl rfl rfl

end Stochastic

namespace LALInferenceInitBurst

/-- C25 (violated by the code): the interval registered for `time` is
`[endtime - 0.05, endtime + 0.05]` whatever `--dt` is: `timeMin` and `timeMax`
are computed at lines 275-276 from `dt = 0.1`, before `--dt` is read at lines
279-280.  With `--trigtime 1000 --dt 1` the code registers
`[999.95, 1000.05]`, the help text promising `[999.5, 1000.5]`; without `--dt`
it registers a width of `0.1`, the help text naming `0.2`. -/
theorem timePrior_ignores_dt :
    (∀ (endtime : ℚ) (dtArg : Option ℚ),
      (timePriorLocals endtime dtArg).timeMin = endtime - 1 / 20 ∧
      (timePriorLocals endtime dtArg).timeMax = endtime + 1 / 20) ∧
    resolveEndtime (some 1000) false (-1) = some 1000 ∧
    (timePriorLocals 1000 (some 1)).dt = 1 ∧
    ((timePriorLocals 1000 (some 1)).timeMin, (timePriorLocals 1000 (some 1)).timeMax)
      = (19999 / 20, 20001 / 20) ∧
    documentedTimePrior 1000 (some 1) = (1999 / 2, 2001 / 2) ∧
    ((timePriorLocals 1000 none).timeMin, (timePriorLocals 1000 none).timeMax)
      = (19999 / 20, 20001 / 20) ∧
    documentedTimePrior 1000 none = (9999 / 10, 10001 / 10) := by
  refine ⟨?_, ?_, rfl, ?_, ?_, ?_, ?_⟩
  · intro endtime dtArg
    constructor <;> simp only [timePriorLocals] <;> ring
  · simp [resolveEndtime]
  · simp only [timePriorLocals, Prod.mk.injEq]
    constructor <;> norm_num
  · simp only [documentedTimePrior, Option.getD_some, Prod.mk.injEq]
    constructor <;> norm_num
  · simp only [timePriorLocals, Prod.mk.injEq]
    constructor <;> norm_num
  · simp only [documentedTimePrior, Option.getD_none, Prod.mk.injEq]
    constructor <;> norm_num

end LALInferenceInitBurst
